import Mathlib

/- Shallow embedding of the har-to-llm converter core (converter.ts):
JSON structural similarity, URL normalization, semantic and exact
deduplication, response conversion and summary generation.  JavaScript
records (plain objects used as string maps) are modelled as association
lists with insertion-order update semantics; JSON.parse, being standard
library code external to the repository, is modelled by pairing each body
text with the parse outcome it would produce. -/

/-- Insert a string into an ascending sorted list. -/
def insertSorted (s : String) : List String → List String
  | [] => [s]
  | t :: rest => if s < t then s :: t :: rest else t :: insertSorted s rest

/-- Sort a list of strings ascending; models the Array.prototype.sort calls
on the key-name lists used by the converter.  JavaScript sorts by UTF-16
code units and Lean's string order compares code points; the two agree on
the ASCII names HTTP headers, query parameters and JSON keys use here. -/
def sortStrings : List String → List String
  | [] => []
  | s :: rest => insertSorted s (sortStrings rest)

/-- JavaScript object assignment obj[k] = v on a string-valued record:
overwrite the existing property in place, or append a new one. -/
def recordSet (r : List (String × String)) (k v : String) : List (String × String) :=
  if r.any (fun p => p.1 == k) then
    r.map (fun p => if p.1 == k then (k, v) else p)
  else r ++ [(k, v)]

/-- JavaScript property read obj[k]; undefined becomes none. -/
def recordGet (r : List (String × String)) (k : String) : Option String :=
  (r.find? (fun p => p.1 == k)).map Prod.snd

/-- Counter read m[k] with the (m[k] || 0) default used by generateSummary. -/
def lookupNat (r : List (String × Nat)) (k : String) : Nat :=
  ((r.find? (fun p => p.1 == k)).map Prod.snd).getD 0

/-- JavaScript m[k] = (m[k] || 0) + 1 on a counter record. -/
def recordIncr (r : List (String × Nat)) (k : String) : List (String × Nat) :=
  if r.any (fun p => p.1 == k) then
    r.map (fun p => if p.1 == k then (k, p.2 + 1) else p)
  else r ++ [(k, 1)]

def startsWithChars : List Char → List Char → Bool
  | [], _ => true
  | _ :: _, [] => false
  | p :: ps, c :: cs => p == c && startsWithChars ps cs

/-- Substring test on character lists. -/
def containsChars (pat : List Char) : List Char → Bool
  | [] => startsWithChars pat []
  | c :: rest => startsWithChars pat (c :: rest) || containsChars pat rest

/-- JavaScript String.prototype.includes. -/
def strIncludes (s pat : String) : Bool := containsChars pat.data s.data

/-- String.prototype.toLowerCase restricted to ASCII, which covers every
header name the converter lowercases. -/
def lowerChar (c : Char) : Char :=
  if decide ('A' <= c) && decide (c <= 'Z') then Char.ofNat (c.toNat + 32) else c

def jsToLower (s : String) : String := String.mk (s.data.map lowerChar)

/-- JSON values as produced by JSON.parse.  Numbers are modelled as
integers: the converter never inspects a numeric value beyond its type,
so the lost float precision is irrelevant to every comparison. -/
inductive Json where
  | null
  | bool (b : Bool)
  | num (n : Int)
  | str (s : String)
  | arr (elems : List Json)
  | obj (fields : List (String × Json))

/-- JavaScript typeof: note typeof null is the string object. -/
def jsTypeof : Json → String
  | .null => "object"
  | .bool _ => "boolean"
  | .num _ => "number"
  | .str _ => "string"
  | .arr _ => "object"
  | .obj _ => "object"

/-- Array.isArray. -/
def Json.isArr : Json → Bool
  | .arr _ => true
  | _ => false

/-- JavaScript property access obj[k] on a parsed JSON object (first
matching field; parsed objects never carry duplicate keys). -/
def objGet (fs : List (String × Json)) (k : String) : Json :=
  match fs with
  | [] => Json.null
  | (k', v) :: rest => if k' == k then v else objGet rest k

theorem sizeOf_objGet_le (fs : List (String × Json)) (k : String) :
    sizeOf (objGet fs k) ≤ sizeOf fs := by
  induction fs with
  | nil => simp [objGet]
  | cons p rest ih =>
    obtain ⟨k', v⟩ := p
    simp only [objGet]
    split
    · simp only [List.cons.sizeOf_spec, Prod.mk.sizeOf_spec]
      omega
    · refine le_trans ih ?_
      simp only [List.cons.sizeOf_spec]
      omega

/- areJsonStructuresSimilar from converter.ts.  The function can throw:
when obj1 is a non-null object and obj2 is null, Object.keys(obj2) raises
a TypeError; this is modelled as Except.error and callers catch it.
jsSimFields is the sorted-key comparison loop of the object branch. -/
mutual
def jsSim (a b : Json) : Except Unit Bool :=
  if jsTypeof a ≠ jsTypeof b then .ok false
  else if a.isArr ≠ b.isArr then .ok false
  else
    match a, b with
    | .arr [], .arr [] => .ok true
    | .arr [], .arr (_ :: _) => .ok false
    | .arr (_ :: _), .arr [] => .ok false
    | .arr (x :: _), .arr (y :: _) => jsSim x y
    | .obj fa, .obj fb =>
      let ks1 := sortStrings (fa.map Prod.fst)
      let ks2 := sortStrings (fb.map Prod.fst)
      if ks1.length ≠ ks2.length then .ok false
      else if ks1 ≠ ks2 then .ok false
      else jsSimFields ks1 fa fb
    | .obj _, .null => .error ()
    | _, _ => .ok true
termination_by (sizeOf a, 1, 0)
decreasing_by
  · simp only [Prod.lex_iff, Json.arr.sizeOf_spec, List.cons.sizeOf_spec]
    omega
  · simp only [Prod.lex_iff, Json.obj.sizeOf_spec]
    omega

def jsSimFields (ks : List String) (fa fb : List (String × Json)) : Except Unit Bool :=
  match ks with
  | [] => .ok true
  | k :: rest =>
    match jsSim (objGet fa k) (objGet fb k) with
    | .error e => .error e
    | .ok false => .ok false
    | .ok true => jsSimFields rest fa fb
termination_by (sizeOf fa + 1, 0, ks.length)
decreasing_by
  all_goals simp only [Prod.lex_iff, List.length_cons, true_and]
  · have := sizeOf_objGet_le fa t
    omega
  · omega
end

/-- Specification-side reading of the claim for structurallySimilar, with
null treated as a primitive of its own type (as the spec's case analysis
reads): both primitives of equal type are similar unconditionally, objects
need equal sorted key sets and recursively similar values, arrays compare
emptiness and then only their first elements. -/
def SimRelOrig : Json → Json → Prop
  | .null, .null => True
  | .bool _, .bool _ => True
  | .num _, .num _ => True
  | .str _, .str _ => True
  | .arr [], .arr [] => True
  | .arr (x :: _), .arr (y :: _) => SimRelOrig x y
  | .obj fa, .obj fb =>
    sortStrings (fa.map Prod.fst) = sortStrings (fb.map Prod.fst) ∧
    ∀ k, k ∈ sortStrings (fa.map Prod.fst) → SimRelOrig (objGet fa k) (objGet fb k)
  | _, _ => False
termination_by a _ => sizeOf a
decreasing_by
  · simp only [Json.arr.sizeOf_spec, List.cons.sizeOf_spec]
    omega
  · have := sizeOf_objGet_le fa k
    simp only [Json.obj.sizeOf_spec]
    omega

/-- Amended specification-side relation: identical to SimRelOrig except that
null, whose JavaScript typeof is the string object, additionally counts as
similar to any non-array object when it is the first argument. -/
def SimRel : Json → Json → Prop
  | .null, .null => True
  | .null, .obj _ => True
  | .bool _, .bool _ => True
  | .num _, .num _ => True
  | .str _, .str _ => True
  | .arr [], .arr [] => True
  | .arr (x :: _), .arr (y :: _) => SimRel x y
  | .obj fa, .obj fb =>
    sortStrings (fa.map Prod.fst) = sortStrings (fb.map Prod.fst) ∧
    ∀ k, k ∈ sortStrings (fa.map Prod.fst) → SimRel (objGet fa k) (objGet fb k)
  | _, _ => False
termination_by a _ => sizeOf a
decreasing_by
  · simp only [Json.arr.sizeOf_spec, List.cons.sizeOf_spec]
    omega
  · have := sizeOf_objGet_le fa k
    simp only [Json.obj.sizeOf_spec]
    omega

/-- getStructureKey from converter.ts: a string encoding only the
structural type of a JSON value (typeof null is the string object). -/
def getStructureKey : Json → String
  | .arr [] => "[]"
  | .arr (x :: _) => "[" ++ getStructureKey x ++ "]"
  | .obj fs => "\x7b" ++ String.intercalate "," (sortStrings (fs.map Prod.fst)) ++ "\x7d"
  | j => jsTypeof j
termination_by j => sizeOf j
decreasing_by
  simp only [Json.arr.sizeOf_spec, List.cons.sizeOf_spec]
  omega

/- normalizeJsonStructure from converter.ts: arrays keep only the first
element of each distinct structure key (normArrayGo is the loop with its
seen-set); object members are normalized recursively; primitives and null
are returned unchanged. -/
mutual
def normalizeJsonStructure : Json → Json
  | .arr [] => .arr []
  | .arr (x :: xs) => .arr (normArrayGo (x :: xs) [])
  | .obj fs => .obj (normFields fs)
  | j => j
termination_by j => sizeOf j

def normArrayGo : List Json → List String → List Json
  | [], _ => []
  | e :: rest, seen =>
    let ne := normalizeJsonStructure e
    let key := getStructureKey ne
    if seen.contains key then normArrayGo rest seen
    else ne :: normArrayGo rest (seen ++ [key])
termination_by l _ => sizeOf l

def normFields : List (String × Json) → List (String × Json)
  | [] => []
  | (k, v) :: rest => (k, normalizeJsonStructure v) :: normFields rest
termination_by fs => sizeOf fs
end

def hexDigit (n : Nat) : Char :=
  if n < 10 then Char.ofNat (48 + n) else Char.ofNat (87 + n)

def hex4 (n : Nat) : String :=
  String.mk [hexDigit (n / 4096 % 16), hexDigit (n / 256 % 16),
             hexDigit (n / 16 % 16), hexDigit (n % 16)]

/-- JSON string escaping as performed by JSON.stringify. -/
def escapeChar (c : Char) : String :=
  if c == Char.ofNat 34 then "\\\""
  else if c == Char.ofNat 92 then "\\\\"
  else if c == Char.ofNat 10 then "\\n"
  else if c == Char.ofNat 13 then "\\r"
  else if c == Char.ofNat 9 then "\\t"
  else if c.toNat < 32 then "\\u" ++ hex4 c.toNat
  else String.singleton c

def quoteJson (s : String) : String :=
  "\"" ++ String.join (s.data.map escapeChar) ++ "\""

def spaces (n : Nat) : String := String.mk (List.replicate n ' ')

/- JSON.stringify(value, null, 2): two-space indented pretty printing,
with items and fields each on their own line. -/
mutual
def stringifyAt (ind : Nat) : Json → String
  | .null => "null"
  | .bool true => "true"
  | .bool false => "false"
  | .num n => toString n
  | .str s => quoteJson s
  | .arr [] => "[]"
  | .arr (x :: xs) =>
    "[\n" ++ stringifyItems (ind + 1) (x :: xs) ++ "\n" ++ spaces (2 * ind) ++ "]"
  | .obj [] => "\x7b\x7d"
  | .obj (f :: fs) =>
    "\x7b\n" ++ stringifyFields (ind + 1) (f :: fs) ++ "\n" ++ spaces (2 * ind) ++ "\x7d"
termination_by j => (sizeOf j, 0)

def stringifyItems (ind : Nat) : List Json → String
  | [] => ""
  | [x] => spaces (2 * ind) ++ stringifyAt ind x
  | x :: y :: rest =>
    spaces (2 * ind) ++ stringifyAt ind x ++ ",\n" ++ stringifyItems ind (y :: rest)
termination_by l => (sizeOf l, 1)

def stringifyFields (ind : Nat) : List (String × Json) → String
  | [] => ""
  | [(k, v)] => spaces (2 * ind) ++ quoteJson k ++ ": " ++ stringifyAt ind v
  | (k, v) :: f :: fs =>
    spaces (2 * ind) ++ quoteJson k ++ ": " ++ stringifyAt ind v ++ ",\n" ++
      stringifyFields ind (f :: fs)
termination_by l => (sizeOf l, 1)
end

/-- JSON.stringify(value, null, 2). -/
def stringify2 (j : Json) : String := stringifyAt 0 j

/-- Case-insensitive hex digit, as matched by the [0-9a-f] class with the i
flag in the UUID rule of normalizeUrl. -/
def isHexCi (c : Char) : Bool :=
  c.isDigit || (decide ('a' ≤ c) && decide (c ≤ 'f')) || (decide ('A' ≤ c) && decide (c ≤ 'F'))

/-- Consume exactly n characters satisfying p; some gives the remainder. -/
def takeExact : Nat → (Char → Bool) → List Char → Option (List Char)
  | 0, _, l => some l
  | _ + 1, _, [] => none
  | n + 1, p, c :: rest => if p c then takeExact n p rest else none

def expectChar (c : Char) : List Char → Option (List Char)
  | [] => none
  | d :: rest => if d == c then some rest else none

/-- Body of the numeric rule: one or more digits, matched greedily.  A
shorter run can never be followed by the slash-or-end delimiter, so the
maximal run is the only candidate the regex engine can accept. -/
def matchDigitRun : List Char → Option (List Char)
  | [] => none
  | c :: rest => if c.isDigit then some (rest.dropWhile Char.isDigit) else none

/-- Body of the UUID rule: 8-4-4-4-12 case-insensitive hex groups. -/
def matchUuid (l : List Char) : Option (List Char) :=
  (takeExact 8 isHexCi l).bind fun r1 =>
  (expectChar '-' r1).bind fun r2 =>
  (takeExact 4 isHexCi r2).bind fun r3 =>
  (expectChar '-' r3).bind fun r4 =>
  (takeExact 4 isHexCi r4).bind fun r5 =>
  (expectChar '-' r5).bind fun r6 =>
  (takeExact 4 isHexCi r6).bind fun r7 =>
  (expectChar '-' r7).bind fun r8 =>
  takeExact 12 isHexCi r8

/-- The four substitution rules of normalizeUrl, in the order they run. -/
inductive SegRule where
  | idR
  | uuidR
  | objR
  | hashR

/-- The segment-body pattern of each rule.  Note the 24- and 32-character
rules use the [a-zA-Z0-9] class of the source, not a hex class. -/
def ruleMatch : SegRule → List Char → Option (List Char)
  | .idR, l => matchDigitRun l
  | .uuidR, l => matchUuid l
  | .objR, l => takeExact 24 Char.isAlphanum l
  | .hashR, l => takeExact 32 Char.isAlphanum l

def rulePh : SegRule → List Char
  | .idR => "\x7bid\x7d".data
  | .uuidR => "\x7buuid\x7d".data
  | .objR => "\x7bobjectId\x7d".data
  | .hashR => "\x7bhash\x7d".data

theorem takeExact_length_le :
    ∀ (n : Nat) (p : Char → Bool) (l l' : List Char), takeExact n p l = some l' → l'.length ≤ l.length := by
  intro n
  induction n with
  | zero =>
    intro p l l' h
    simp only [takeExact, Option.some.injEq] at h
    subst h
    exact Nat.le_refl _
  | succ m ih =>
    intro p l l' h
    match l with
    | [] => simp [takeExact] at h
    | c :: rest =>
      simp only [takeExact] at h
      split at h
      · have := ih p rest l' h
        simp only [List.length_cons]
        omega
      · exact absurd h (by simp)

theorem expectChar_length_le (c : Char) (l l' : List Char) (h : expectChar c l = some l') :
    l'.length ≤ l.length := by
  match l with
  | [] => simp [expectChar] at h
  | d :: rest =>
    simp only [expectChar] at h
    split at h
    · simp only [Option.some.injEq] at h
      subst h
      simp only [List.length_cons]
      omega
    · exact absurd h (by simp)

theorem length_dropWhileChar_le (p : Char → Bool) (l : List Char) :
    (l.dropWhile p).length ≤ l.length := by
  induction l with
  | nil => simp
  | cons c rest ih =>
    by_cases h : p c
    · simp only [List.dropWhile, h]
      simp only [List.length_cons]
      omega
    · simp [List.dropWhile, h]

theorem matchDigitRun_length_le (l l' : List Char) (h : matchDigitRun l = some l') :
    l'.length ≤ l.length := by
  match l with
  | [] => simp [matchDigitRun] at h
  | c :: rest =>
    simp only [matchDigitRun] at h
    split at h
    · simp only [Option.some.injEq] at h
      subst h
      have := length_dropWhileChar_le Char.isDigit rest
      simp only [List.length_cons]
      omega
    · exact absurd h (by simp)

theorem matchUuid_length_le (l l' : List Char) (h : matchUuid l = some l') :
    l'.length ≤ l.length := by
  simp only [matchUuid, Option.bind_eq_some] at h
  obtain ⟨r1, h1, r2, h2, r3, h3, r4, h4, r5, h5, r6, h6, r7, h7, r8, h8, h9⟩ := h
  have t1 := takeExact_length_le _ _ _ _ h1
  have t2 := expectChar_length_le _ _ _ h2
  have t3 := takeExact_length_le _ _ _ _ h3
  have t4 := expectChar_length_le _ _ _ h4
  have t5 := takeExact_length_le _ _ _ _ h5
  have t6 := expectChar_length_le _ _ _ h6
  have t7 := takeExact_length_le _ _ _ _ h7
  have t8 := expectChar_length_le _ _ _ h8
  have t9 := takeExact_length_le _ _ _ _ h9
  omega

theorem ruleMatch_length_le (r : SegRule) (l l' : List Char) (h : ruleMatch r l = some l') :
    l'.length ≤ l.length := by
  cases r with
  | idR => exact matchDigitRun_length_le l l' h
  | uuidR => exact matchUuid_length_le l l' h
  | objR => exact takeExact_length_le 24 Char.isAlphanum l l' h
  | hashR => exact takeExact_length_le 32 Char.isAlphanum l l' h

/-- One global-replace pass of normalizeUrl for one rule: the JavaScript
regex \/BODY(\/|$) replaced by /PLACEHOLDER$1.  A match consumes its
trailing slash delimiter, so scanning resumes after it — an immediately
following segment no longer has a leading slash available to match. -/
def segPass (r : SegRule) : List Char → List Char
  | [] => []
  | c :: rest =>
    if c == '/' then
      match h : ruleMatch r rest with
      | some [] => '/' :: rulePh r
      | some ('/' :: rem) => ('/' :: rulePh r ++ ['/']) ++ segPass r rem
      | _ => c :: segPass r rest
    else c :: segPass r rest
termination_by l => l.length
decreasing_by
  · have := ruleMatch_length_le r rest _ h
    simp only [List.length_cons] at *
    omega
  · simp only [List.length_cons]
    omega
  · simp only [List.length_cons]
    omega

/-- normalizeUrl from converter.ts: four sequential global regex
substitution passes over the whole URL string. -/
def normalizeUrl (url : String) : String :=
  String.mk (segPass .hashR (segPass .objR (segPass .uuidR (segPass .idR url.data))))

/-- A body text paired with the outcome JSON.parse would give for it.
JSON.parse is JavaScript standard-library code external to the repository;
parsed = none models a parse that throws. -/
structure JsText where
  raw : String
  parsed : Option Json

structure PostData where
  mimeType : String
  text : JsText

structure HarContent where
  mimeType : String
  text : Option JsText

/-- The fields of a HAR request that the converter core reads (cookies,
sizes, httpVersion and the other passive fields of the full HAR record are
never consulted by the embedded functions and are omitted). -/
structure HarRequest where
  method : String
  url : String
  headers : List (String × String)
  queryString : List (String × String)
  postData : Option PostData

structure HarResponse where
  status : Int
  statusText : String
  headers : List (String × String)
  content : HarContent

/-- One captured exchange; time is the duration in milliseconds (a
JavaScript number, modelled as a rational). -/
structure HAREntry where
  startedDateTime : String
  time : ℚ
  request : HarRequest
  response : HarResponse

structure LLMRequest where
  method : String
  url : String
  headers : List (String × String)
  queryParams : List (String × String)
  body : Option JsText
  contentType : Option String

structure LLMResponse where
  status : Int
  statusText : String
  headers : List (String × String)
  body : Option String
  contentType : Option String

structure LLMConversation where
  request : LLMRequest
  response : LLMResponse
  timestamp : String
  duration : ℚ

structure RequestSignature where
  method : String
  url : String
  headers : List (String × String)
  queryParams : List (String × String)
  body : Option JsText

/-- The fixed uselessHeaders denylist of isUselessHeader, verbatim
(including the duplicated save-data entry). -/
def uselessHeaders : List String :=
  ["user-agent", "accept", "accept-language", "accept-encoding",
   "cache-control", "pragma", "upgrade-insecure-requests",
   "sec-fetch-dest", "sec-fetch-mode", "sec-fetch-site", "sec-fetch-user",
   "sec-ch-ua", "sec-ch-ua-mobile", "sec-ch-ua-platform",
   "connection", "keep-alive", "transfer-encoding", "content-encoding",
   "content-length", "date", "server", "via", "x-powered-by",
   "x-aspnet-version", "x-aspnetmvc-version",
   "etag", "last-modified", "if-modified-since", "if-none-match",
   "if-match", "if-unmodified-since",
   "x-frame-options", "x-content-type-options", "x-xss-protection",
   "strict-transport-security", "content-security-policy", "referrer-policy",
   "x-forwarded-for", "x-real-ip", "x-forwarded-proto", "x-forwarded-host",
   "x-forwarded-port", "x-requested-with",
   "cf-ray", "cf-cache-status", "cf-request-id", "x-cache", "x-cache-hit",
   "x-amz-cf-id", "x-amz-cf-pop",
   "origin", "referer", "dnt", "save-data", "viewport-width",
   "device-memory", "downlink", "ect", "rtt", "save-data"]

def isUselessHeader (name : String) : Bool := uselessHeaders.contains name

/-- convertRequest from converter.ts: headers lowercased and filtered of
useless names (last write wins), query parameters collapsed to a record,
body and content type taken from postData when present. -/
def convertRequest (r : HarRequest) : LLMRequest :=
  { method := r.method
    url := r.url
    headers := r.headers.foldl
      (fun acc p =>
        let key := jsToLower p.1
        if isUselessHeader key then acc else recordSet acc key p.2) []
    queryParams := r.queryString.foldl (fun acc p => recordSet acc p.1 p.2) []
    body := r.postData.map (fun pd => pd.text)
    contentType := r.postData.map (fun pd => pd.mimeType) }

/-- convertResponse from converter.ts: body and content type are set only
when content.text is truthy (present and nonempty); a JSON content type
whose body parses is re-serialized from its normalized structure. -/
def convertResponse (r : HarResponse) : LLMResponse :=
  let headers := r.headers.foldl
    (fun acc p =>
      let key := jsToLower p.1
      if isUselessHeader key then acc else recordSet acc key p.2) []
  match r.content.text with
  | some t =>
    if t.raw ≠ "" then
      let contentType := r.content.mimeType
      let body :=
        if contentType != "" && strIncludes contentType "json" then
          match t.parsed with
          | some j => stringify2 (normalizeJsonStructure j)
          | none => t.raw
        else t.raw
      { status := r.status, statusText := r.statusText, headers := headers,
        body := some body, contentType := some contentType }
    else
      { status := r.status, statusText := r.statusText, headers := headers,
        body := none, contentType := none }
  | none =>
    { status := r.status, statusText := r.statusText, headers := headers,
      body := none, contentType := none }

/-- convertEntry from converter.ts. -/
def convertEntry (e : HAREntry) : LLMConversation :=
  { request := convertRequest e.request
    response := convertResponse e.response
    timestamp := e.startedDateTime
    duration := e.time }

/-- createSemanticSignature from converter.ts. -/
def createSemanticSignature (e : HAREntry) : RequestSignature :=
  let request := convertRequest e.request
  { method := request.method, url := request.url, headers := request.headers,
    queryParams := request.queryParams, body := request.body }

/-- createRequestSignature from converter.ts (identical projection, kept as
its own function as in the source). -/
def createRequestSignature (e : HAREntry) : RequestSignature :=
  let request := convertRequest e.request
  { method := request.method, url := request.url, headers := request.headers,
    queryParams := request.queryParams, body := request.body }

/-- areQueryParamsSimilar from converter.ts: sorted key-name lists must
have equal length and agree position by position. -/
def areQueryParamsSimilar (params1 params2 : List (String × String)) : Bool :=
  let keys1 := sortStrings (params1.map Prod.fst)
  let keys2 := sortStrings (params2.map Prod.fst)
  keys1.length == keys2.length && keys1 == keys2

/-- areHeadersSimilar from converter.ts (same shape as the query-parameter
comparison, kept separate as in the source). -/
def areHeadersSimilar (headers1 headers2 : List (String × String)) : Bool :=
  let keys1 := sortStrings (headers1.map Prod.fst)
  let keys2 := sortStrings (headers2.map Prod.fst)
  keys1.length == keys2.length && keys1 == keys2

/-- JavaScript falsiness of an optional body string: undefined or empty. -/
def jsFalsy : Option JsText → Bool
  | none => true
  | some t => t.raw == ""

/-- areBodiesSimilar from converter.ts.  The try block covers both JSON
parses and the structural comparison, so a TypeError thrown inside
areJsonStructuresSimilar also lands in the string-equality fallback. -/
def areBodiesSimilar (body1 body2 : Option JsText) : Bool :=
  if jsFalsy body1 && jsFalsy body2 then true
  else if jsFalsy body1 || jsFalsy body2 then false
  else
    match body1, body2 with
    | some t1, some t2 =>
      match t1.parsed, t2.parsed with
      | some j1, some j2 =>
        match jsSim j1 j2 with
        | .ok result => result
        | .error _ => t1.raw == t2.raw
      | _, _ => t1.raw == t2.raw
    | _, _ => false

/-- areRequestsSemanticallySimilar from converter.ts. -/
def areRequestsSemanticallySimilar (sig1 sig2 : RequestSignature) : Bool :=
  if sig1.method ≠ sig2.method then false
  else if normalizeUrl sig1.url ≠ normalizeUrl sig2.url then false
  else if !areQueryParamsSimilar sig1.queryParams sig2.queryParams then false
  else if !areBodiesSimilar sig1.body sig2.body then false
  else if !areHeadersSimilar sig1.headers sig2.headers then false
  else true

/-- The value of the hasJson expression content.mimeType &&
content.mimeType.includes("json"): an empty mime type short-circuits to
the empty string, which under strict JavaScript comparison differs from
both booleans. -/
inductive JsFlag where
  | emptyStr
  | fls
  | tru
deriving DecidableEq

def hasJsonFlag (mime : String) : JsFlag :=
  if mime == "" then .emptyStr
  else if strIncludes mime "json" then .tru
  else .fls

/-- JavaScript strict equality text1 === text2 on optional body texts. -/
def textOptEq : Option JsText → Option JsText → Bool
  | none, none => true
  | some a, some b => a.raw == b.raw
  | _, _ => false

/-- The argument JSON.parse receives in the response comparison:
content.text || the empty-object literal, so a missing or empty text
parses as an empty object. -/
def effParse : Option JsText → Option Json
  | none => some (Json.obj [])
  | some t => if t.raw == "" then some (Json.obj []) else t.parsed

/-- areResponsesSemanticallySimilar from converter.ts.  The try block
covers parsing, normalization and the structural comparison; any throw
falls back to strict text equality. -/
def areResponsesSemanticallySimilar (e1 e2 : HAREntry) : Bool :=
  let r1 := e1.response
  let r2 := e2.response
  if r1.status ≠ r2.status then false
  else
    let f1 := hasJsonFlag r1.content.mimeType
    let f2 := hasJsonFlag r2.content.mimeType
    if f1 ≠ f2 then false
    else if f1 == .tru && f2 == .tru then
      match effParse r1.content.text, effParse r2.content.text with
      | some j1, some j2 =>
        match jsSim (normalizeJsonStructure j1) (normalizeJsonStructure j2) with
        | .ok result => result
        | .error _ => textOptEq r1.content.text r2.content.text
      | _, _ => textOptEq r1.content.text r2.content.text
    else textOptEq r1.content.text r2.content.text

/-- The dynamicHeaders exclusion list of getStaticHeaders, verbatim. -/
def dynamicHeaders : List String :=
  ["user-agent", "date", "if-modified-since", "if-none-match",
   "cache-control", "pragma", "expires", "last-modified", "etag",
   "x-requested-with", "x-forwarded-for", "x-real-ip"]

/-- getStaticHeaders from converter.ts. -/
def getStaticHeaders (headers : List (String × String)) : List (String × String) :=
  headers.foldl
    (fun acc p =>
      if dynamicHeaders.contains (jsToLower p.1) then acc else recordSet acc p.1 p.2) []

/-- The value-comparison loop of areRequestsEqual: every key of ks must
give strictly equal lookups in both records. -/
def recordValuesMatchOn (ks : List String) (r1 r2 : List (String × String)) : Bool :=
  ks.all (fun k => recordGet r1 k == recordGet r2 k)

/-- areRequestsEqual from converter.ts. -/
def areRequestsEqual (sig1 sig2 : RequestSignature) : Bool :=
  if sig1.method ≠ sig2.method ∨ sig1.url ≠ sig2.url then false
  else
    let queryKeys1 := sortStrings (sig1.queryParams.map Prod.fst)
    let queryKeys2 := sortStrings (sig2.queryParams.map Prod.fst)
    if queryKeys1.length ≠ queryKeys2.length then false
    else if !recordValuesMatchOn queryKeys1 sig1.queryParams sig2.queryParams then false
    else
      let staticHeaders1 := getStaticHeaders sig1.headers
      let staticHeaders2 := getStaticHeaders sig2.headers
      let headerKeys1 := sortStrings (staticHeaders1.map Prod.fst)
      let headerKeys2 := sortStrings (staticHeaders2.map Prod.fst)
      if headerKeys1.length ≠ headerKeys2.length then false
      else if !recordValuesMatchOn headerKeys1 staticHeaders1 staticHeaders2 then false
      else if !textOptEq sig1.body sig2.body then false
      else true

/-- The loop body condition of deduplicateEntries: the candidate is dropped
only when BOTH the request and the response comparisons hold. -/
def bothSimilar (e existing : HAREntry) : Bool :=
  areRequestsSemanticallySimilar (createSemanticSignature e) (createSemanticSignature existing) &&
    areResponsesSemanticallySimilar e existing

/-- The accumulation loop of deduplicateEntries; acc is the deduplicated
array built so far, in order. -/
def dedupGo : List HAREntry → List HAREntry → List HAREntry
  | [], acc => acc
  | e :: rest, acc =>
    if acc.any (fun existing => bothSimilar e existing) then dedupGo rest acc
    else dedupGo rest (acc ++ [e])

/-- deduplicateEntries from converter.ts. -/
def deduplicateEntries (entries : List HAREntry) : List HAREntry :=
  dedupGo entries []

/-- The accumulation loop of removeExactDuplicates; seen holds the
signatures of the entries kept so far. -/
def removeExactGo : List HAREntry → List RequestSignature → List HAREntry
  | [], _ => []
  | e :: rest, seen =>
    let signature := createRequestSignature e
    if seen.any (fun seenSig => areRequestsEqual signature seenSig) then
      removeExactGo rest seen
    else e :: removeExactGo rest (seen ++ [signature])

/-- removeExactDuplicates from converter.ts. -/
def removeExactDuplicates (entries : List HAREntry) : List HAREntry :=
  removeExactGo entries []

/-- Hostname extraction of the JavaScript URL constructor, modelled for
the simple absolute URLs the summary's domain counting needs: the
authority after the scheme separator, with userinfo and port stripped;
none models a constructor throw on a URL with no scheme or empty host. -/
def afterScheme : List Char → Option (List Char)
  | [] => none
  | ':' :: '/' :: '/' :: rest => some rest
  | _ :: rest => afterScheme rest

def hostOf (url : String) : Option String :=
  match afterScheme url.data with
  | none => none
  | some rest =>
    let authority := rest.takeWhile (fun c => c ≠ '/' && c ≠ '?' && c ≠ '#')
    let afterUser := if authority.contains '@' then
        (authority.reverse.takeWhile (fun c => c ≠ '@')).reverse
      else authority
    let host := afterUser.takeWhile (fun c => c ≠ ':')
    if host.isEmpty then none else some (String.mk host)

structure HarSummary where
  totalRequests : Nat
  methods : List (String × Nat)
  statusCodes : List (String × Nat)
  domains : List (String × Nat)
  averageDuration : ℚ
  totalDuration : ℚ
deriving DecidableEq

/-- The forEach loop of generateSummary; a URL the URL constructor rejects
propagates as an error naming the offending URL. -/
def summaryGo : List HAREntry → List (String × Nat) → List (String × Nat) →
    List (String × Nat) → ℚ →
    Except String (List (String × Nat) × List (String × Nat) × List (String × Nat) × ℚ)
  | [], methods, statusCodes, domains, totalDuration =>
    .ok (methods, statusCodes, domains, totalDuration)
  | e :: rest, methods, statusCodes, domains, totalDuration =>
    let methods := recordIncr methods e.request.method
    let statusCodes := recordIncr statusCodes (toString e.response.status)
    match hostOf e.request.url with
    | none => .error e.request.url
    | some host =>
      summaryGo rest methods statusCodes (recordIncr domains host) (totalDuration + e.time)

/-- generateSummary from converter.ts, including the division-by-zero
guard on averageDuration. -/
def generateSummary (entries : List HAREntry) : Except String HarSummary :=
  match summaryGo entries [] [] [] 0 with
  | .error u => .error u
  | .ok (methods, statusCodes, domains, totalDuration) =>
    .ok { totalRequests := entries.length
          methods := methods
          statusCodes := statusCodes
          domains := domains
          averageDuration :=
            if entries.length > 0 then totalDuration / (entries.length : ℚ) else 0
          totalDuration := totalDuration }

/-- Specification-side body comparison for both-present bodies, following
the spec's words: if both parse, the structural comparison decides (a
comparison that raises falls back to string equality, which is where the
thrown TypeError of the comparison lands); otherwise exact string
equality. -/
def bodyCompare (t1 t2 : JsText) : Prop :=
  match t1.parsed, t2.parsed with
  | some j1, some j2 =>
    jsSim j1 j2 = .ok true ∨ (jsSim j1 j2 = .error () ∧ t1.raw = t2.raw)
  | _, _ => t1.raw = t2.raw

/-- Body similarity exactly as the claim reads it: both absent similar,
exactly one absent dissimilar, both present compared. -/
def bodiesSimilarSpecO (b1 b2 : Option JsText) : Prop :=
  match b1, b2 with
  | none, none => True
  | some t1, some t2 => bodyCompare t1 t2
  | _, _ => False

/-- A body the JavaScript code treats as absent: undefined or the empty
string (both falsy). -/
def bodyBlank (b : Option JsText) : Prop := b = none ∨ ∃ t, b = some t ∧ t.raw = ""

/-- Amended body similarity: as the claim, but with absent replaced by
absent-or-empty throughout. -/
def bodiesSimilarSpecA (b1 b2 : Option JsText) : Prop :=
  (bodyBlank b1 ∧ bodyBlank b2) ∨
  (¬ bodyBlank b1 ∧ ¬ bodyBlank b2 ∧
    ∃ t1 t2, b1 = some t1 ∧ b2 = some t2 ∧ bodyCompare t1 t2)

/-- The request-similarity predicate exactly as the claim states it. -/
def reqSimilarSpecO (sig1 sig2 : RequestSignature) : Prop :=
  sig1.method = sig2.method ∧
  normalizeUrl sig1.url = normalizeUrl sig2.url ∧
  sortStrings (sig1.queryParams.map Prod.fst) = sortStrings (sig2.queryParams.map Prod.fst) ∧
  bodiesSimilarSpecO sig1.body sig2.body ∧
  sortStrings (sig1.headers.map Prod.fst) = sortStrings (sig2.headers.map Prod.fst)

/-- The request-similarity predicate as amended (empty-string bodies count
as absent). -/
def reqSimilarSpecA (sig1 sig2 : RequestSignature) : Prop :=
  sig1.method = sig2.method ∧
  normalizeUrl sig1.url = normalizeUrl sig2.url ∧
  sortStrings (sig1.queryParams.map Prod.fst) = sortStrings (sig2.queryParams.map Prod.fst) ∧
  bodiesSimilarSpecA sig1.body sig2.body ∧
  sortStrings (sig1.headers.map Prod.fst) = sortStrings (sig2.headers.map Prod.fst)

/-- Strict JavaScript equality of the optional raw texts, as a
proposition. -/
def optRawEq (x y : Option JsText) : Prop :=
  Option.map JsText.raw x = Option.map JsText.raw y

/-- A body text that is present and parses, the reading of the original
claim (no empty-object default for missing text). -/
def bindParse (x : Option JsText) : Option Json := x.bind JsText.parsed

/-- The JSON branch of the response-similarity claim, original reading. -/
def jsonBranchO (x1 x2 : Option JsText) : Prop :=
  match bindParse x1, bindParse x2 with
  | some j1, some j2 =>
    jsSim (normalizeJsonStructure j1) (normalizeJsonStructure j2) = .ok true ∨
    (jsSim (normalizeJsonStructure j1) (normalizeJsonStructure j2) = .error () ∧ optRawEq x1 x2)
  | _, _ => optRawEq x1 x2

/-- The response-similarity predicate exactly as the claim states it:
JSON presence is the plain contains-json test on the content type. -/
def respSimilarSpecO (e1 e2 : HAREntry) : Prop :=
  e1.response.status = e2.response.status ∧
  strIncludes e1.response.content.mimeType "json" =
    strIncludes e2.response.content.mimeType "json" ∧
  (strIncludes e1.response.content.mimeType "json" = true →
    jsonBranchO e1.response.content.text e2.response.content.text) ∧
  (strIncludes e1.response.content.mimeType "json" = false →
    optRawEq e1.response.content.text e2.response.content.text)

/-- The JSON branch as amended: a missing or empty body text parses as the
empty object (the content.text-or-empty-object-literal argument). -/
def jsonBranchA (x1 x2 : Option JsText) : Prop :=
  match effParse x1, effParse x2 with
  | some j1, some j2 =>
    jsSim (normalizeJsonStructure j1) (normalizeJsonStructure j2) = .ok true ∨
    (jsSim (normalizeJsonStructure j1) (normalizeJsonStructure j2) = .error () ∧ optRawEq x1 x2)
  | _, _ => optRawEq x1 x2

/-- The response-similarity predicate as amended: the JSON presence flags
(with an empty content type giving a third, distinct value) must be
strictly equal, and the JSON branch defaults missing or empty text to the
empty object. -/
def respSimilarSpecA (e1 e2 : HAREntry) : Prop :=
  e1.response.status = e2.response.status ∧
  hasJsonFlag e1.response.content.mimeType = hasJsonFlag e2.response.content.mimeType ∧
  (hasJsonFlag e1.response.content.mimeType = .tru →
    jsonBranchA e1.response.content.text e2.response.content.text) ∧
  (hasJsonFlag e1.response.content.mimeType ≠ .tru →
    optRawEq e1.response.content.text e2.response.content.text)

/-- First-occurrence filter by structure key: keep each element whose key
has not appeared earlier in the list (the declarative description of what
normalizeJsonStructure does to an array). -/
def keepFirstByKey : List Json → List Json
  | [] => []
  | x :: rest =>
    x :: keepFirstByKey (rest.filter (fun y => getStructureKey y != getStructureKey x))
termination_by l => l.length
decreasing_by
  have := List.length_filter_le (fun y => getStructureKey y != getStructureKey x) rest
  simp only [List.length_cons]
  omega

/-- A wholly numeric path segment. -/
def isAllDigits (s : List Char) : Bool := !s.isEmpty && s.all Char.isDigit

/-- A segment that is exactly one UUID (8-4-4-4-12 hex, case-insensitive). -/
def isUuidSeg (s : List Char) : Bool := matchUuid s == some []

/-- Whole-segment replacement in the claim's priority order with the
claim's character classes: 24 and 32 HEX characters. -/
def segReplaceSpec (s : List Char) : List Char :=
  if isAllDigits s then rulePh .idR
  else if isUuidSeg s then rulePh .uuidR
  else if s.length == 24 && s.all isHexCi then rulePh .objR
  else if s.length == 32 && s.all isHexCi then rulePh .hashR
  else s

/-- Split a character list on the slash separator, as String.split on "/"
would (an empty list yields one empty segment, delimiters at the ends
yield empty segments). -/
def splitOnSlash : List Char → List (List Char)
  | [] => [[]]
  | c :: rest =>
    if c == '/' then [] :: splitOnSlash rest
    else
      match splitOnSlash rest with
      | s :: ss => (c :: s) :: ss
      | [] => [[c]]

def joinSlash : List (List Char) → List Char
  | [] => []
  | [s] => s
  | s :: rest => s ++ '/' :: joinSlash rest

/-- normalizeUrl exactly as the claim describes it: every path segment
that wholly matches a rule is replaced, independently of its neighbours,
and a trailing slash is preserved. -/
def normalizeUrlSpec (url : String) : String :=
  String.mk (joinSlash ((splitOnSlash url.data).map segReplaceSpec))

/-- Whole-segment replacement in priority order with the character
classes the code actually uses: the 24- and 32-character rules accept any
alphanumeric characters. -/
def segReplace (s : List Char) : List Char :=
  if isAllDigits s then rulePh .idR
  else if isUuidSeg s then rulePh .uuidR
  else if s.length == 24 && s.all Char.isAlphanum then rulePh .objR
  else if s.length == 32 && s.all Char.isAlphanum then rulePh .hashR
  else s

theorem insertSorted_perm (s : String) (l : List String) :
    List.Perm (insertSorted s l) (s :: l) := by
  induction l with
  | nil => simp [insertSorted]
  | cons t rest ih =>
    simp only [insertSorted]
    split
    · exact List.Perm.refl _
    · exact List.Perm.trans (List.Perm.cons t ih) (List.Perm.swap s t rest)

theorem sortStrings_perm (l : List String) : List.Perm (sortStrings l) l := by
  induction l with
  | nil => simp [sortStrings]
  | cons s rest ih =>
    exact List.Perm.trans (insertSorted_perm s (sortStrings rest)) (List.Perm.cons s ih)

theorem mem_sortStrings (a : String) (l : List String) :
    a ∈ sortStrings l ↔ a ∈ l :=
  (sortStrings_perm l).mem_iff

theorem length_sortStrings (l : List String) :
    (sortStrings l).length = l.length :=
  (sortStrings_perm l).length_eq

theorem nodup_sortStrings (l : List String) :
    (sortStrings l).Nodup ↔ l.Nodup :=
  (sortStrings_perm l).nodup_iff

theorem map_fst_update (r : List (String × String)) (k v : String) :
    (r.map (fun p => if p.1 == k then (k, v) else p)).map Prod.fst = r.map Prod.fst := by
  induction r with
  | nil => simp
  | cons p rest ih =>
    simp only [List.map_cons]
    by_cases hp : p.1 == k
    · simp only [hp, if_pos]
      simp only [beq_iff_eq] at hp
      rw [ih]
      simp [hp]
    · simp only [hp]
      rw [if_neg (by simp [hp])]
      rw [ih]

theorem recordSet_map_fst (r : List (String × String)) (k v : String) :
    (recordSet r k v).map Prod.fst =
      if r.any (fun p => p.1 == k) then r.map Prod.fst else r.map Prod.fst ++ [k] := by
  simp only [recordSet]
  split
  · exact map_fst_update r k v
  · simp

theorem nodup_keys_recordSet (r : List (String × String)) (k v : String)
    (h : (r.map Prod.fst).Nodup) : ((recordSet r k v).map Prod.fst).Nodup := by
  rw [recordSet_map_fst]
  split
  · exact h
  · rename_i hany
    rw [List.nodup_append]
    refine ⟨h, List.nodup_singleton k, ?_⟩
    intro a ha hb
    simp only [List.mem_singleton] at hb
    subst hb
    simp only [List.mem_map] at ha
    obtain ⟨p, hp, hpe⟩ := ha
    exact hany (List.any_eq_true.mpr ⟨p, hp, by simp [hpe]⟩)

theorem dedupGo_acc_structure :
    ∀ (l acc : List HAREntry), ∃ s, dedupGo l acc = acc ++ s ∧ List.Sublist s l := by
  intro l
  induction l with
  | nil => intro acc; exact ⟨[], by simp [dedupGo]⟩
  | cons e rest ih =>
    intro acc
    simp only [dedupGo]
    split
    · obtain ⟨s, hs, hsub⟩ := ih acc
      exact ⟨s, hs, List.Sublist.cons e hsub⟩
    · obtain ⟨s, hs, hsub⟩ := ih (acc ++ [e])
      refine ⟨e :: s, ?_, List.Sublist.cons₂ e hsub⟩
      rw [hs, List.append_assoc]
      rfl

theorem dedupGo_snoc (e : HAREntry) :
    ∀ (l acc : List HAREntry),
      dedupGo (l ++ [e]) acc =
        if (dedupGo l acc).any (fun existing => bothSimilar e existing) then dedupGo l acc
        else dedupGo l acc ++ [e] := by
  intro l
  induction l with
  | nil =>
    intro acc
    simp [dedupGo]
  | cons x rest ih =>
    intro acc
    simp only [List.cons_append, dedupGo]
    split
    · exact ih acc
    · exact ih (acc ++ [x])

/-- C1: deduplicateEntries returns an ordered subsequence of its input
(the source collection is only filtered, never mutated), it starts empty,
and an exchange is appended exactly when no earlier retained exchange
satisfies both the request-similarity and the response-similarity
predicate — first seen wins. -/
theorem deduplicateEntries_first_seen_wins :
    (∀ xs : List HAREntry, List.Sublist (deduplicateEntries xs) xs) ∧
    deduplicateEntries ([] : List HAREntry) = [] ∧
    (∀ (xs : List HAREntry) (e : HAREntry),
      deduplicateEntries (xs ++ [e]) =
        if (deduplicateEntries xs).any (fun existing => bothSimilar e existing) then
          deduplicateEntries xs
        else deduplicateEntries xs ++ [e]) := by
  refine ⟨?_, rfl, ?_⟩
  · intro xs
    obtain ⟨s, hs, hsub⟩ := dedupGo_acc_structure xs []
    simpa [deduplicateEntries, hs] using hsub
  · intro xs e
    exact dedupGo_snoc e xs []

/-- The output of the dedup loop never contains an entry similar to an
earlier kept one. -/
theorem dedupGo_pairwise :
    ∀ (l acc : List HAREntry),
      List.Pairwise (fun a b => bothSimilar b a = false) acc →
      List.Pairwise (fun a b => bothSimilar b a = false) (dedupGo l acc) := by
  intro l
  induction l with
  | nil => intro acc h; exact h
  | cons e rest ih =>
    intro acc h
    simp only [dedupGo]
    split
    · exact ih acc h
    · rename_i hany
      refine ih (acc ++ [e]) ?_
      rw [List.pairwise_append]
      refine ⟨h, List.pairwise_singleton _ _, ?_⟩
      intro a ha b hb
      simp only [List.mem_singleton] at hb
      subst hb
      simp only [Bool.not_eq_true] at hany
      have := List.any_eq_false.mp hany a ha
      simpa using this

/-- A pairwise-irredundant list passes through the dedup loop untouched. -/
theorem dedupGo_fixed :
    ∀ (ys acc : List HAREntry),
      List.Pairwise (fun a b => bothSimilar b a = false) (acc ++ ys) →
      dedupGo ys acc = acc ++ ys := by
  intro ys
  induction ys with
  | nil => intro acc _; simp [dedupGo]
  | cons y rest ih =>
    intro acc h
    simp only [dedupGo]
    have hy : ∀ a ∈ acc, bothSimilar y a = false := by
      intro a ha
      rw [List.pairwise_append] at h
      exact h.2.2 a ha y (by simp)
    rw [if_neg ?_]
    · have h2 : List.Pairwise (fun a b => bothSimilar b a = false) ((acc ++ [y]) ++ rest) := by
        simpa [List.append_assoc] using h
      rw [ih (acc ++ [y]) h2, List.append_assoc]
      rfl
    · simp only [List.any_eq_true, not_exists]
      intro a
      intro ⟨ha, hsim⟩
      rw [hy a ha] at hsim
      exact Bool.false_ne_true hsim

/-- C7: deduplicateEntries is idempotent. -/
theorem deduplicateEntries_idempotent (xs : List HAREntry) :
    deduplicateEntries (deduplicateEntries xs) = deduplicateEntries xs := by
  have hp : List.Pairwise (fun a b => bothSimilar b a = false) (deduplicateEntries xs) :=
    dedupGo_pairwise xs [] (List.Pairwise.nil)
  have := dedupGo_fixed (deduplicateEntries xs) [] (by simpa using hp)
  simpa [deduplicateEntries] using this

theorem jsSimFields_ok_true_iff (fa fb : List (String × Json)) :
    ∀ ks, jsSimFields ks fa fb = .ok true ↔
      ∀ k ∈ ks, jsSim (objGet fa k) (objGet fb k) = .ok true := by
  intro ks
  induction ks with
  | nil => simp [jsSimFields]
  | cons k rest ih =>
    cases h : jsSim (objGet fa k) (objGet fb k) with
    | error e =>
      refine iff_of_false ?_ ?_
      · simp [jsSimFields, h]
      · intro hall
        have := hall k (by simp)
        rw [h] at this
        exact absurd this (by simp)
    | ok b =>
      cases b with
      | false =>
        refine iff_of_false ?_ ?_
        · simp [jsSimFields, h]
        · intro hall
          have := hall k (by simp)
          rw [h] at this
          exact absurd this (by simp)
      | true =>
        have hstep : jsSimFields (k :: rest) fa fb = jsSimFields rest fa fb := by
          simp [jsSimFields, h]
        rw [hstep, ih]
        constructor
        · intro hr k' hk'
          rcases List.mem_cons.mp hk' with hk' | hk'
          · subst hk'; exact h
          · exact hr k' hk'
        · intro hall k' hk'
          exact hall k' (List.mem_cons_of_mem k hk')

theorem jsSim_ok_true_iff_simRel_aux :
    ∀ (n : Nat) (a b : Json), sizeOf a < n → (jsSim a b = .ok true ↔ SimRel a b) := by
  intro n
  induction n with
  | zero => intro a b h; omega
  | succ m ih =>
    intro a b hlt
    cases a with
    | null => cases b <;> simp [jsSim, SimRel, jsTypeof, Json.isArr]
    | bool x => cases b <;> simp [jsSim, SimRel, jsTypeof, Json.isArr]
    | num x => cases b <;> simp [jsSim, SimRel, jsTypeof, Json.isArr]
    | str x => cases b <;> simp [jsSim, SimRel, jsTypeof, Json.isArr]
    | arr xs =>
      cases b with
      | arr ys =>
        cases xs with
        | nil => cases ys <;> simp [jsSim, SimRel, jsTypeof, Json.isArr]
        | cons x xt =>
          cases ys with
          | nil => simp [jsSim, SimRel, jsTypeof, Json.isArr]
          | cons y yt =>
            have hred : jsSim (Json.arr (x :: xt)) (Json.arr (y :: yt)) = jsSim x y := by
              simp [jsSim, jsTypeof, Json.isArr]
            have hrel : SimRel (Json.arr (x :: xt)) (Json.arr (y :: yt)) = SimRel x y := by
              simp [SimRel]
            rw [hred, hrel]
            refine ih x y ?_
            have : sizeOf (Json.arr (x :: xt)) = 1 + (1 + sizeOf x + sizeOf xt) := by
              simp [Json.arr.sizeOf_spec, List.cons.sizeOf_spec]
            omega
      | null => simp [jsSim, SimRel, jsTypeof, Json.isArr]
      | bool y => simp [jsSim, SimRel, jsTypeof, Json.isArr]
      | num y => simp [jsSim, SimRel, jsTypeof, Json.isArr]
      | str y => simp [jsSim, SimRel, jsTypeof, Json.isArr]
      | obj fb => simp [jsSim, SimRel, jsTypeof, Json.isArr]
    | obj fa =>
      cases b with
      | null => simp [jsSim, SimRel, jsTypeof, Json.isArr]
      | bool y => simp [jsSim, SimRel, jsTypeof, Json.isArr]
      | num y => simp [jsSim, SimRel, jsTypeof, Json.isArr]
      | str y => simp [jsSim, SimRel, jsTypeof, Json.isArr]
      | arr ys => simp [jsSim, SimRel, jsTypeof, Json.isArr]
      | obj fb =>
        have hsz : sizeOf fa < m := by
          have : sizeOf (Json.obj fa) = 1 + sizeOf fa := by
            simp [Json.obj.sizeOf_spec]
          omega
        by_cases hk : sortStrings (fa.map Prod.fst) = sortStrings (fb.map Prod.fst)
        · have hlen : (sortStrings (fa.map Prod.fst)).length =
              (sortStrings (fb.map Prod.fst)).length := by rw [hk]
          have hred : jsSim (Json.obj fa) (Json.obj fb) =
              jsSimFields (sortStrings (fa.map Prod.fst)) fa fb := by
            simp [jsSim, jsTypeof, Json.isArr, hk, hlen]
          have hrel : SimRel (Json.obj fa) (Json.obj fb) ↔
              (sortStrings (fa.map Prod.fst) = sortStrings (fb.map Prod.fst) ∧
               ∀ k, k ∈ sortStrings (fa.map Prod.fst) →
                 SimRel (objGet fa k) (objGet fb k)) := by
            simp [SimRel]
          rw [hred, hrel, jsSimFields_ok_true_iff]
          constructor
          · intro hall
            refine ⟨hk, fun k hkk => ?_⟩
            have := hall k hkk
            exact (ih (objGet fa k) (objGet fb k)
              (by have := sizeOf_objGet_le fa k; omega)).mp this
          · intro ⟨_, hall⟩ k hkk
            exact (ih (objGet fa k) (objGet fb k)
              (by have := sizeOf_objGet_le fa k; omega)).mpr (hall k hkk)
        · refine iff_of_false ?_ ?_
          · by_cases hlen : (sortStrings (fa.map Prod.fst)).length =
                (sortStrings (fb.map Prod.fst)).length
            · simp [jsSim, jsTypeof, Json.isArr, hlen, hk]
            · simp [jsSim, jsTypeof, Json.isArr, hlen]
          · intro hrel
            rw [SimRel] at hrel
            exact hk hrel.1

/-- C4 counterexample: null has JavaScript type object, so the code deems
null structurally similar to a non-empty object, while the claim's case
analysis (types must match, objects need equal key sets) makes them
dissimilar. -/
theorem structurallySimilar_claim_counterexample :
    jsSim Json.null (Json.obj [("a", Json.num 1)]) = .ok true ∧
    ¬ SimRelOrig Json.null (Json.obj [("a", Json.num 1)]) := by
  constructor
  · simp [jsSim, jsTypeof, Json.isArr]
  · simp [SimRelOrig]

/-- C4 (amended): structurallySimilar returns true exactly per the claim's
case analysis extended with the JavaScript null behaviour (null as first
argument is similar to null and to any non-array object), and comparing a
non-null object against null raises a TypeError (modelled as error)
instead of returning. -/
theorem structurallySimilar_characterization :
    (∀ a b : Json, jsSim a b = .ok true ↔ SimRel a b) ∧
    (∀ fields : List (String × Json), jsSim (Json.obj fields) Json.null = .error ()) := by
  constructor
  · intro a b
    exact jsSim_ok_true_iff_simRel_aux (sizeOf a + 1) a b (by omega)
  · intro fields
    simp [jsSim, jsTypeof, Json.isArr]

theorem jsFalsy_iff_blank (b : Option JsText) : jsFalsy b = true ↔ bodyBlank b := by
  cases b with
  | none => simp [jsFalsy, bodyBlank]
  | some t => simp [jsFalsy, bodyBlank]

theorem areBodiesSimilar_iff (b1 b2 : Option JsText) :
    areBodiesSimilar b1 b2 = true ↔ bodiesSimilarSpecA b1 b2 := by
  by_cases hf1 : jsFalsy b1 = true <;> by_cases hf2 : jsFalsy b2 = true
  · refine iff_of_true ?_ ?_
    · simp [areBodiesSimilar, hf1, hf2]
    · exact Or.inl ⟨(jsFalsy_iff_blank b1).mp hf1, (jsFalsy_iff_blank b2).mp hf2⟩
  · refine iff_of_false ?_ ?_
    · simp [areBodiesSimilar, hf1, hf2]
    · intro h
      rcases h with ⟨_, h2⟩ | ⟨h1, _, _⟩
      · exact hf2 ((jsFalsy_iff_blank b2).mpr h2)
      · exact h1 ((jsFalsy_iff_blank b1).mp hf1)
  · refine iff_of_false ?_ ?_
    · simp [areBodiesSimilar, hf1, hf2]
    · intro h
      rcases h with ⟨h1, _⟩ | ⟨_, h2, _⟩
      · exact hf1 ((jsFalsy_iff_blank b1).mpr h1)
      · exact h2 ((jsFalsy_iff_blank b2).mp hf2)
  · cases b1 with
    | none => exact absurd rfl hf1
    | some t1 =>
      cases b2 with
      | none => exact absurd rfl hf2
      | some t2 =>
        have hred : areBodiesSimilar (some t1) (some t2) =
            (match t1.parsed, t2.parsed with
             | some j1, some j2 =>
               match jsSim j1 j2 with
               | .ok result => result
               | .error _ => t1.raw == t2.raw
             | _, _ => t1.raw == t2.raw) := by
          simp [areBodiesSimilar, hf1, hf2]
        have hrhs : bodiesSimilarSpecA (some t1) (some t2) ↔ bodyCompare t1 t2 := by
          constructor
          · intro h
            rcases h with ⟨h1, _⟩ | ⟨_, _, t1', t2', he1, he2, hc⟩
            · exact absurd ((jsFalsy_iff_blank _).mpr h1) hf1
            · cases he1; cases he2; exact hc
          · intro hc
            refine Or.inr ⟨fun h => hf1 ((jsFalsy_iff_blank _).mpr h),
              fun h => hf2 ((jsFalsy_iff_blank _).mpr h), t1, t2, rfl, rfl, hc⟩
        rw [hred, hrhs]
        cases hp1 : t1.parsed with
        | none => simp [bodyCompare, hp1]
        | some j1 =>
          cases hp2 : t2.parsed with
          | none => simp [bodyCompare, hp1, hp2]
          | some j2 =>
            cases hs : jsSim j1 j2 with
            | ok r =>
              cases r with
              | true => simp [bodyCompare, hp1, hp2, hs]
              | false => simp [bodyCompare, hp1, hp2, hs]
            | error e => simp [bodyCompare, hp1, hp2, hs]

theorem areQueryParamsSimilar_iff (p1 p2 : List (String × String)) :
    areQueryParamsSimilar p1 p2 = true ↔
      sortStrings (p1.map Prod.fst) = sortStrings (p2.map Prod.fst) := by
  simp only [areQueryParamsSimilar, Bool.and_eq_true, beq_iff_eq]
  constructor
  · exact fun h => h.2
  · exact fun h => ⟨by rw [h], h⟩

theorem areHeadersSimilar_iff (h1 h2 : List (String × String)) :
    areHeadersSimilar h1 h2 = true ↔
      sortStrings (h1.map Prod.fst) = sortStrings (h2.map Prod.fst) := by
  simp only [areHeadersSimilar, Bool.and_eq_true, beq_iff_eq]
  constructor
  · exact fun h => h.2
  · exact fun h => ⟨by rw [h], h⟩

/-- C2 (amended): the request-similarity predicate holds exactly when the
methods are equal, the normalized URLs are equal as strings, the sorted
query-parameter name lists are equal, the bodies are similar per the claim
with absent relaxed to absent-or-empty (JavaScript falsiness), and the
sorted volatility-filtered header name lists are equal. -/
theorem reqSimilar_characterization (sig1 sig2 : RequestSignature) :
    areRequestsSemanticallySimilar sig1 sig2 = true ↔ reqSimilarSpecA sig1 sig2 := by
  have hprog : areRequestsSemanticallySimilar sig1 sig2 = true ↔
      (sig1.method = sig2.method ∧ normalizeUrl sig1.url = normalizeUrl sig2.url ∧
       areQueryParamsSimilar sig1.queryParams sig2.queryParams = true ∧
       areBodiesSimilar sig1.body sig2.body = true ∧
       areHeadersSimilar sig1.headers sig2.headers = true) := by
    simp only [areRequestsSemanticallySimilar]
    by_cases hm : sig1.method = sig2.method <;>
      by_cases hu : normalizeUrl sig1.url = normalizeUrl sig2.url <;>
      by_cases hq : areQueryParamsSimilar sig1.queryParams sig2.queryParams = true <;>
      by_cases hb : areBodiesSimilar sig1.body sig2.body = true <;>
      by_cases hh : areHeadersSimilar sig1.headers sig2.headers = true <;>
      simp [hm, hu, hq, hb, hh]
  rw [hprog, reqSimilarSpecA.eq_def]
  rw [areQueryParamsSimilar_iff, areBodiesSimilar_iff, areHeadersSimilar_iff]

def c2sig1 : RequestSignature :=
  { method := "GET", url := "", headers := [], queryParams := [],
    body := some { raw := "", parsed := none } }

def c2sig2 : RequestSignature :=
  { method := "GET", url := "", headers := [], queryParams := [],
    body := none }

/-- C2 counterexample: a present-but-empty body is falsy in JavaScript, so
the code treats it like an absent body and deems the requests similar,
while the claim (exactly one body absent, the other present, is
dissimilar) makes them dissimilar. -/
theorem reqSimilar_claim_counterexample :
    areRequestsSemanticallySimilar c2sig1 c2sig2 = true ∧
    ¬ reqSimilarSpecO c2sig1 c2sig2 := by
  constructor
  · simp [areRequestsSemanticallySimilar, c2sig1, c2sig2, areQueryParamsSimilar,
          areHeadersSimilar, areBodiesSimilar, jsFalsy, sortStrings]
  · intro h
    have := h.2.2.2.1
    simp [c2sig1, c2sig2, bodiesSimilarSpecO] at this

theorem textOptEq_iff (x y : Option JsText) : textOptEq x y = true ↔ optRawEq x y := by
  cases x <;> cases y <;> simp [textOptEq, optRawEq]

theorem jsonBranch_match_iff (x1 x2 : Option JsText) :
    (match effParse x1, effParse x2 with
     | some j1, some j2 =>
       match jsSim (normalizeJsonStructure j1) (normalizeJsonStructure j2) with
       | .ok result => result
       | .error _ => textOptEq x1 x2
     | _, _ => textOptEq x1 x2) = true ↔ jsonBranchA x1 x2 := by
  cases he1 : effParse x1 with
  | none => simp [jsonBranchA, he1, textOptEq_iff]
  | some j1 =>
    cases he2 : effParse x2 with
    | none => simp [jsonBranchA, he1, he2, textOptEq_iff]
    | some j2 =>
      cases hjs : jsSim (normalizeJsonStructure j1) (normalizeJsonStructure j2) with
      | ok r =>
        cases r with
        | true => simp [jsonBranchA, he1, he2, hjs]
        | false => simp [jsonBranchA, he1, he2, hjs]
      | error e => simp [jsonBranchA, he1, he2, hjs, textOptEq_iff]

/-- C3 (amended): the response-similarity predicate holds exactly when the
status codes are equal, the JSON-presence values are strictly equal (an
empty content type yields a third value distinct from both booleans, as
the JavaScript short-circuit leaves the empty string), and — when both
are JSON — the bodies with missing or empty text defaulted to the empty
object are parsed, normalized and structurally compared (a comparison
that raises falls back to raw text equality); otherwise the raw texts
must be equal, two missing texts comparing equal. -/
theorem respSimilar_characterization (e1 e2 : HAREntry) :
    areResponsesSemanticallySimilar e1 e2 = true ↔ respSimilarSpecA e1 e2 := by
  simp only [areResponsesSemanticallySimilar]
  by_cases hs : e1.response.status = e2.response.status
  · by_cases hf : hasJsonFlag e1.response.content.mimeType =
        hasJsonFlag e2.response.content.mimeType
    · by_cases ht : hasJsonFlag e1.response.content.mimeType = JsFlag.tru
      · have hcond : (hasJsonFlag e1.response.content.mimeType == JsFlag.tru &&
            hasJsonFlag e2.response.content.mimeType == JsFlag.tru) = true := by
          rw [← hf, ht]
          rfl
        rw [if_neg (by simp [hs]), if_neg (by simp [hf]), if_pos hcond]
        rw [jsonBranch_match_iff]
        simp only [respSimilarSpecA]
        constructor
        · intro hb
          exact ⟨hs, hf, fun _ => hb, fun hnt => absurd ht hnt⟩
        · intro ⟨_, _, hb, _⟩
          exact hb ht
      · rw [if_neg (by simp [hs]), if_neg (by simp [hf]),
            if_neg (by simp [Bool.and_eq_true, beq_iff_eq]; intro h; exact absurd h ht)]
        rw [textOptEq_iff]
        simp only [respSimilarSpecA]
        constructor
        · intro hb
          exact ⟨hs, hf, fun htru => absurd htru ht, fun _ => hb⟩
        · intro ⟨_, _, _, hb⟩
          exact hb ht
    · refine iff_of_false ?_ ?_
      · rw [if_neg (by simp [hs]), if_pos (by simp [hf])]
        simp
      · intro h
        exact hf h.2.1
  · refine iff_of_false ?_ ?_
    · rw [if_pos (by simp [hs])]
      simp
    · intro h
      exact hs h.1

def c3e1 : HAREntry :=
  { startedDateTime := ""
    time := 0
    request := { method := "GET", url := "", headers := [], queryString := [], postData := none }
    response := { status := 200, statusText := "", headers := []
                  content := { mimeType := "", text := some { raw := "x", parsed := none } } } }

def c3e2 : HAREntry :=
  { startedDateTime := ""
    time := 0
    request := { method := "GET", url := "", headers := [], queryString := [], postData := none }
    response := { status := 200, statusText := "", headers := []
                  content := { mimeType := "text", text := some { raw := "x", parsed := none } } } }

/-- C3 counterexample: with an empty content type on one side and a
non-JSON content type on the other, neither response has a JSON content
type and the raw texts are equal, so the claim deems them similar; the
code compares the JavaScript values of the two hasJson expressions with
strict inequality — the empty string against false — and returns false. -/
theorem respSimilar_claim_counterexample :
    areResponsesSemanticallySimilar c3e1 c3e2 = false ∧ respSimilarSpecO c3e1 c3e2 := by
  constructor
  · rfl
  · exact ⟨rfl, rfl, fun h => absurd h (by decide), fun _ => rfl⟩

theorem removeExactGo_sublist :
    ∀ (l : List HAREntry) (seen : List RequestSignature),
      List.Sublist (removeExactGo l seen) l := by
  intro l
  induction l with
  | nil => intro seen; simp [removeExactGo]
  | cons e rest ih =>
    intro seen
    simp only [removeExactGo]
    split
    · exact List.Sublist.cons e (ih seen)
    · exact List.Sublist.cons₂ e (ih _)

theorem removeExactGo_snoc (e : HAREntry) :
    ∀ (l : List HAREntry) (seen : List RequestSignature),
      removeExactGo (l ++ [e]) seen =
        removeExactGo l seen ++
          (if (seen ++ (removeExactGo l seen).map createRequestSignature).any
              (fun s => areRequestsEqual (createRequestSignature e) s) then ([] : List HAREntry)
           else [e]) := by
  intro l
  induction l with
  | nil =>
    intro seen
    simp [removeExactGo]
  | cons x rest ih =>
    intro seen
    simp only [List.cons_append, removeExactGo, List.append_eq]
    split
    · exact ih seen
    · rw [ih (seen ++ [createRequestSignature x])]
      simp only [List.map_cons, List.cons_append, List.append_assoc, List.singleton_append]
      rfl

theorem recordGet_eq_none_iff (r : List (String × String)) (k : String) :
    recordGet r k = none ↔ k ∉ r.map Prod.fst := by
  induction r with
  | nil => simp [recordGet]
  | cons p rest ih =>
    simp only [recordGet] at ih ⊢
    by_cases hp : (p.1 == k) = true
    · rw [show List.find? (fun q => q.1 == k) (p :: rest) = some p by
        simp [List.find?_cons, hp]]
      refine iff_of_false (by simp) ?_
      intro hmem
      exact hmem (List.mem_map.mpr ⟨p, List.mem_cons_self p rest, by simpa using hp⟩)
    · rw [show List.find? (fun q => q.1 == k) (p :: rest) =
          List.find? (fun q => q.1 == k) rest by
        simp [List.find?_cons, hp], ih]
      simp only [List.map_cons, List.mem_cons, not_or]
      constructor
      · intro h
        exact ⟨fun he => (by simpa using hp : ¬p.1 = k) he.symm, h⟩
      · intro ⟨_, h⟩
        exact h

theorem nodup_keys_foldl (step : List (String × String) → String × String → List (String × String))
    (hstep : ∀ acc p, (acc.map Prod.fst).Nodup → ((step acc p).map Prod.fst).Nodup) :
    ∀ (l : List (String × String)) (acc : List (String × String)),
      (acc.map Prod.fst).Nodup → ((l.foldl step acc).map Prod.fst).Nodup := by
  intro l
  induction l with
  | nil => intro acc h; exact h
  | cons p rest ih => intro acc h; exact ih (step acc p) (hstep acc p h)

theorem nodup_keys_header_record (l : List (String × String)) :
    ((l.foldl
        (fun acc p =>
          let key := jsToLower p.1
          if isUselessHeader key then acc else recordSet acc key p.2) []).map Prod.fst).Nodup := by
  refine nodup_keys_foldl _ ?_ l [] (by simp)
  intro acc p h
  by_cases hp : isUselessHeader (jsToLower p.1) = true
  · have hstep : (let key := jsToLower p.1
        if isUselessHeader key then acc else recordSet acc key p.2) = acc := by
      simp [hp]
    rw [hstep]
    exact h
  · have hstep : (let key := jsToLower p.1
        if isUselessHeader key then acc else recordSet acc key p.2) =
        recordSet acc (jsToLower p.1) p.2 := by
      simp [hp]
    rw [hstep]
    exact nodup_keys_recordSet acc (jsToLower p.1) p.2 h

theorem nodup_keys_query_record (l : List (String × String)) :
    ((l.foldl (fun acc p => recordSet acc p.1 p.2) []).map Prod.fst).Nodup := by
  refine nodup_keys_foldl _ ?_ l [] (by simp)
  intro acc p h
  exact nodup_keys_recordSet acc p.1 p.2 h

theorem nodup_keys_getStaticHeaders (l : List (String × String)) :
    ((getStaticHeaders l).map Prod.fst).Nodup := by
  refine nodup_keys_foldl _ ?_ l [] (by simp)
  intro acc p h
  by_cases hp : dynamicHeaders.contains (jsToLower p.1) = true
  · have hstep : (if dynamicHeaders.contains (jsToLower p.1) then acc
        else recordSet acc p.1 p.2) = acc := by rw [if_pos hp]
    rw [hstep]
    exact h
  · have hstep : (if dynamicHeaders.contains (jsToLower p.1) then acc
        else recordSet acc p.1 p.2) = recordSet acc p.1 p.2 := by rw [if_neg hp]
    rw [hstep]
    exact nodup_keys_recordSet acc p.1 p.2 h

theorem recordGet_mem_iff (r : List (String × String)) (k : String) :
    (recordGet r k ≠ none) ↔ k ∈ r.map Prod.fst := by
  constructor
  · intro h
    by_contra hk
    exact h ((recordGet_eq_none_iff r k).mpr hk)
  · intro hk h
    exact absurd hk ((recordGet_eq_none_iff r k).mp h)

/-- The pair of checks the exact comparator performs on one record pair —
equal sorted-key-list lengths plus equal lookups over the first record's
keys — is, for records with duplicate-free keys, exactly extensional map
equality. -/
theorem recordsPairChecks_iff (r1 r2 : List (String × String))
    (h1 : (r1.map Prod.fst).Nodup) (h2 : (r2.map Prod.fst).Nodup) :
    ((sortStrings (r1.map Prod.fst)).length = (sortStrings (r2.map Prod.fst)).length ∧
     recordValuesMatchOn (sortStrings (r1.map Prod.fst)) r1 r2 = true) ↔
    ∀ k, recordGet r1 k = recordGet r2 k := by
  constructor
  · intro ⟨hlen, hmatch⟩ k
    simp only [recordValuesMatchOn, List.all_eq_true] at hmatch
    by_cases hk : k ∈ r1.map Prod.fst
    · have := hmatch k ((mem_sortStrings k _).mpr hk)
      simpa using this
    · rw [(recordGet_eq_none_iff r1 k).mpr hk]
      by_contra hne
      have hk2 : k ∈ r2.map Prod.fst := by
        rw [← recordGet_mem_iff]
        exact fun hn => hne hn.symm
      have hsub : (r1.map Prod.fst).toFinset ⊆ (r2.map Prod.fst).toFinset := by
        intro a ha
        rw [List.mem_toFinset] at ha ⊢
        have hga := hmatch a ((mem_sortStrings a _).mpr ha)
        simp only [beq_iff_eq] at hga
        rw [← recordGet_mem_iff] at ha ⊢
        rw [← hga]
        exact ha
      have hcard : (r2.map Prod.fst).toFinset.card ≤ (r1.map Prod.fst).toFinset.card := by
        rw [List.toFinset_card_of_nodup h1, List.toFinset_card_of_nodup h2]
        rw [length_sortStrings, length_sortStrings] at hlen
        omega
      have heq := Finset.eq_of_subset_of_card_le hsub hcard
      exact hk (by
        have : k ∈ (r2.map Prod.fst).toFinset := List.mem_toFinset.mpr hk2
        rw [← heq] at this
        exact List.mem_toFinset.mp this)
  · intro hext
    have hsets : ∀ a, a ∈ r1.map Prod.fst ↔ a ∈ r2.map Prod.fst := by
      intro a
      rw [← recordGet_mem_iff, ← recordGet_mem_iff, hext a]
    constructor
    · rw [length_sortStrings, length_sortStrings]
      rw [← List.toFinset_card_of_nodup h1, ← List.toFinset_card_of_nodup h2]
      congr 1
      ext a
      simp only [List.mem_toFinset]
      exact hsets a
    · simp only [recordValuesMatchOn, List.all_eq_true]
      intro k _
      simp [hext k]

theorem areRequestsEqual_checks (sig1 sig2 : RequestSignature) :
    areRequestsEqual sig1 sig2 = true ↔
      (sig1.method = sig2.method ∧ sig1.url = sig2.url ∧
       ((sortStrings (sig1.queryParams.map Prod.fst)).length =
          (sortStrings (sig2.queryParams.map Prod.fst)).length ∧
        recordValuesMatchOn (sortStrings (sig1.queryParams.map Prod.fst))
          sig1.queryParams sig2.queryParams = true) ∧
       ((sortStrings ((getStaticHeaders sig1.headers).map Prod.fst)).length =
          (sortStrings ((getStaticHeaders sig2.headers).map Prod.fst)).length ∧
        recordValuesMatchOn (sortStrings ((getStaticHeaders sig1.headers).map Prod.fst))
          (getStaticHeaders sig1.headers) (getStaticHeaders sig2.headers) = true) ∧
       textOptEq sig1.body sig2.body = true) := by
  simp only [areRequestsEqual]
  by_cases hm : sig1.method = sig2.method <;>
    by_cases hu : sig1.url = sig2.url <;>
    by_cases hq1 : (sortStrings (sig1.queryParams.map Prod.fst)).length =
      (sortStrings (sig2.queryParams.map Prod.fst)).length <;>
    by_cases hq2 : recordValuesMatchOn (sortStrings (sig1.queryParams.map Prod.fst))
      sig1.queryParams sig2.queryParams = true <;>
    by_cases hh1 : (sortStrings ((getStaticHeaders sig1.headers).map Prod.fst)).length =
      (sortStrings ((getStaticHeaders sig2.headers).map Prod.fst)).length <;>
    by_cases hh2 : recordValuesMatchOn (sortStrings ((getStaticHeaders sig1.headers).map Prod.fst))
      (getStaticHeaders sig1.headers) (getStaticHeaders sig2.headers) = true <;>
    by_cases hb : textOptEq sig1.body sig2.body = true <;>
    simp [hm, hu, hq1, hq2, hh1, hh2, hb]

theorem nodup_sig_query (e : HAREntry) :
    (((createRequestSignature e).queryParams).map Prod.fst).Nodup :=
  nodup_keys_query_record e.request.queryString

theorem nodup_sig_headers (e : HAREntry) :
    (((createRequestSignature e).headers).map Prod.fst).Nodup :=
  nodup_keys_header_record e.request.headers

def c6A : HAREntry :=
  { startedDateTime := "2023-12-01T10:30:00.000Z"
    time := 150
    request := { method := "GET", url := "https://api.example.com/users"
                 headers := [("authorization", "Bearer tok"), ("date", "Mon, 01 Jan 2024"),
                             ("etag", "v1")]
                 queryString := [("page", "1")]
                 postData := none }
    response := { status := 200, statusText := "OK", headers := []
                  content := { mimeType := "", text := none } } }

def c6B : HAREntry :=
  { startedDateTime := "2023-12-01T10:30:00.000Z"
    time := 150
    request := { method := "GET", url := "https://api.example.com/users"
                 headers := [("authorization", "Bearer tok"), ("date", "Tue, 02 Jan 2024"),
                             ("etag", "v2")]
                 queryString := [("page", "1")]
                 postData := none }
    response := { status := 200, statusText := "OK", headers := []
                  content := { mimeType := "", text := none } } }

/-- C6: removeExactDuplicates keeps an ordered subsequence; an exchange is
appended exactly when no previously kept exchange has an equal signature;
signature equality is extensional equality of method, raw URL, the
query-parameter map, the static-header map (volatile and
dynamic-for-exact-match names removed) and the literal body text; and two
exchanges identical except for a date header and an etag header value
collapse to one. -/
theorem removeExactDuplicates_spec :
    (∀ xs : List HAREntry, List.Sublist (removeExactDuplicates xs) xs) ∧
    (∀ (xs : List HAREntry) (e : HAREntry),
      removeExactDuplicates (xs ++ [e]) =
        removeExactDuplicates xs ++
          (if ((removeExactDuplicates xs).map createRequestSignature).any
              (fun s => areRequestsEqual (createRequestSignature e) s) then ([] : List HAREntry)
           else [e])) ∧
    (∀ e1 e2 : HAREntry,
      areRequestsEqual (createRequestSignature e1) (createRequestSignature e2) = true ↔
        ((createRequestSignature e1).method = (createRequestSignature e2).method ∧
         (createRequestSignature e1).url = (createRequestSignature e2).url ∧
         (∀ k, recordGet (createRequestSignature e1).queryParams k =
               recordGet (createRequestSignature e2).queryParams k) ∧
         (∀ k, recordGet (getStaticHeaders (createRequestSignature e1).headers) k =
               recordGet (getStaticHeaders (createRequestSignature e2).headers) k) ∧
         optRawEq (createRequestSignature e1).body (createRequestSignature e2).body)) ∧
    removeExactDuplicates [c6A, c6B] = [c6A] := by
  refine ⟨?_, ?_, ?_, ?_⟩
  · intro xs
    exact removeExactGo_sublist xs []
  · intro xs e
    have := removeExactGo_snoc e xs []
    simpa [removeExactDuplicates] using this
  · intro e1 e2
    rw [areRequestsEqual_checks]
    rw [recordsPairChecks_iff _ _ (nodup_sig_query e1) (nodup_sig_query e2)]
    rw [recordsPairChecks_iff _ _ (nodup_keys_getStaticHeaders _) (nodup_keys_getStaticHeaders _)]
    rw [textOptEq_iff]
  · rfl

/-- C8: the deduplication comparison paths are total.  A body that fails
to parse, and a structural comparison that raises (which happens when a
successfully parsed null meets a non-null object), are both caught and
replaced by raw-text comparison; no error escapes, and deduplicateEntries
always returns a result no longer than its input. -/
theorem dedup_comparison_totality :
    (∀ t1 t2 : JsText, t1.raw ≠ "" → t2.raw ≠ "" → t1.parsed = none →
      areBodiesSimilar (some t1) (some t2) = (t1.raw == t2.raw)) ∧
    (∀ (t1 t2 : JsText) (j1 j2 : Json), t1.raw ≠ "" → t2.raw ≠ "" →
      t1.parsed = some j1 → t2.parsed = some j2 → jsSim j1 j2 = .error () →
      areBodiesSimilar (some t1) (some t2) = (t1.raw == t2.raw)) ∧
    (∀ (e1 e2 : HAREntry) (j1 j2 : Json),
      e1.response.status = e2.response.status →
      hasJsonFlag e1.response.content.mimeType = JsFlag.tru →
      hasJsonFlag e2.response.content.mimeType = JsFlag.tru →
      effParse e1.response.content.text = some j1 →
      effParse e2.response.content.text = some j2 →
      jsSim (normalizeJsonStructure j1) (normalizeJsonStructure j2) = .error () →
      areResponsesSemanticallySimilar e1 e2 =
        textOptEq e1.response.content.text e2.response.content.text) ∧
    (∀ xs : List HAREntry, (deduplicateEntries xs).length ≤ xs.length) := by
  refine ⟨?_, ?_, ?_, ?_⟩
  · intro t1 t2 h1 h2 hp
    simp [areBodiesSimilar, jsFalsy, h1, h2, hp]
  · intro t1 t2 j1 j2 h1 h2 hp1 hp2 hs
    simp [areBodiesSimilar, jsFalsy, h1, h2, hp1, hp2, hs]
  · intro e1 e2 j1 j2 hs hf1 hf2 hp1 hp2 herr
    simp only [areResponsesSemanticallySimilar]
    rw [if_neg (by simp [hs]), if_neg (by simp [hf1, hf2]), if_pos (by simp [hf1, hf2])]
    rw [hp1, hp2]
    simp [herr]
  · intro xs
    obtain ⟨s, hs, hsub⟩ := dedupGo_acc_structure xs []
    have : deduplicateEntries xs = s := by simpa [deduplicateEntries] using hs
    rw [this]
    exact hsub.length_le

def c8t1 : JsText := { raw := "\x7b\"a\":1\x7d", parsed := some (Json.obj [("a", Json.num 1)]) }

def c8t2 : JsText := { raw := "null", parsed := some Json.null }

/-- C8 witness: a body that parses to an object compared with a body that
parses to null makes the structural comparison raise; the caught error
falls back to raw-text equality, which is false here, and no error
escapes. -/
theorem dedup_comparison_totality_witness :
    (c8t1.raw ≠ "" ∧ c8t2.raw ≠ "" ∧ c8t1.parsed = some (Json.obj [("a", Json.num 1)]) ∧
     c8t2.parsed = some Json.null ∧
     jsSim (Json.obj [("a", Json.num 1)]) Json.null = .error ()) ∧
    areBodiesSimilar (some c8t1) (some c8t2) = false := by
  refine ⟨⟨by decide, by decide, rfl, rfl, by simp [jsSim, jsTypeof, Json.isArr]⟩, ?_⟩
  have := dedup_comparison_totality.2.1 c8t1 c8t2 (Json.obj [("a", Json.num 1)]) Json.null
    (by decide) (by decide) rfl rfl (by simp [jsSim, jsTypeof, Json.isArr])
  rw [this]
  decide

theorem find?_map_incr_ne (r : List (String × Nat)) (k k' : String) (h : k' ≠ k) :
    List.find? (fun p => p.1 == k') (r.map (fun p => if p.1 == k then (k, p.2 + 1) else p)) =
      List.find? (fun p => p.1 == k') r := by
  induction r with
  | nil => rfl
  | cons p rest ih =>
    simp only [List.map_cons]
    by_cases hk : (p.1 == k) = true
    · rw [if_pos hk]
      have hkk : (k == k') = false := by
        simp only [beq_eq_false_iff_ne]
        exact Ne.symm h
      rw [show List.find? (fun p => p.1 == k') ((k, p.2 + 1) :: _) =
        List.find? (fun p => p.1 == k')
          (rest.map (fun p => if p.1 == k then (k, p.2 + 1) else p)) by
        simp [List.find?_cons, hkk]]
      rw [ih]
      have hp : (p.1 == k') = false := by
        have hpk : p.1 = k := by simpa using hk
        rw [hpk]
        simp only [beq_eq_false_iff_ne]
        exact Ne.symm h
      rw [show List.find? (fun p => p.1 == k') (p :: rest) =
        List.find? (fun p => p.1 == k') rest by simp [List.find?_cons, hp]]
    · rw [if_neg hk]
      by_cases hp : (p.1 == k') = true
      · rw [show List.find? (fun q => q.1 == k') (p :: rest.map _) = some p by
          simp [List.find?_cons, hp]]
        rw [show List.find? (fun q => q.1 == k') (p :: rest) = some p by
          simp [List.find?_cons, hp]]
      · rw [show List.find? (fun q => q.1 == k') (p :: rest.map
            (fun p => if p.1 == k then (k, p.2 + 1) else p)) =
            List.find? (fun q => q.1 == k') (rest.map
            (fun p => if p.1 == k then (k, p.2 + 1) else p)) by
          simp [List.find?_cons, hp]]
        rw [show List.find? (fun q => q.1 == k') (p :: rest) =
            List.find? (fun q => q.1 == k') rest by simp [List.find?_cons, hp]]
        exact ih

theorem lookupNat_map_incr_eq (r : List (String × Nat)) (k : String)
    (h : r.any (fun p => p.1 == k) = true) :
    lookupNat (r.map (fun p => if p.1 == k then (k, p.2 + 1) else p)) k =
      lookupNat r k + 1 := by
  induction r with
  | nil => simp at h
  | cons p rest ih =>
    simp only [List.map_cons]
    by_cases hk : (p.1 == k) = true
    · rw [if_pos hk]
      simp only [lookupNat]
      rw [show List.find? (fun q => q.1 == k) ((k, p.2 + 1) :: _) = some (k, p.2 + 1) by
        simp [List.find?_cons]]
      rw [show List.find? (fun q => q.1 == k) (p :: rest) = some p by
        simp [List.find?_cons, hk]]
      rfl
    · rw [if_neg hk]
      have hrest : rest.any (fun p => p.1 == k) = true := by
        simp only [List.any_cons, Bool.or_eq_true] at h
        rcases h with h | h
        · exact absurd h hk
        · exact h
      simp only [lookupNat] at ih ⊢
      rw [show List.find? (fun q => q.1 == k) (p :: rest.map
          (fun p => if p.1 == k then (k, p.2 + 1) else p)) =
          List.find? (fun q => q.1 == k) (rest.map
          (fun p => if p.1 == k then (k, p.2 + 1) else p)) by
        simp [List.find?_cons, hk]]
      rw [show List.find? (fun q => q.1 == k) (p :: rest) =
          List.find? (fun q => q.1 == k) rest by simp [List.find?_cons, hk]]
      exact ih hrest

theorem lookupNat_append_single (r : List (String × Nat)) (k k' : String) (n : Nat) :
    lookupNat (r ++ [(k, n)]) k' =
      if (k' = k ∧ List.find? (fun p => p.1 == k') r = none) then n else lookupNat r k' := by
  induction r with
  | nil =>
    by_cases he : k' = k
    · simp [lookupNat, List.find?_cons, he]
    · simp [lookupNat, List.find?_cons, he, (by simpa using fun h => he h.symm : (k == k') = false)]
  | cons p rest ih =>
    simp only [List.cons_append, lookupNat]
    by_cases hp : (p.1 == k') = true
    · rw [show List.find? (fun q => q.1 == k') (p :: (rest ++ [(k, n)])) = some p by
        simp [List.find?_cons, hp]]
      rw [show List.find? (fun q => q.1 == k') (p :: rest) = some p by
        simp [List.find?_cons, hp]]
      rw [if_neg (by
        rintro ⟨_, hfind⟩
        exact Option.noConfusion hfind)]
    · rw [show List.find? (fun q => q.1 == k') (p :: (rest ++ [(k, n)])) =
          List.find? (fun q => q.1 == k') (rest ++ [(k, n)]) by simp [List.find?_cons, hp]]
      rw [show List.find? (fun q => q.1 == k') (p :: rest) =
          List.find? (fun q => q.1 == k') rest by simp [List.find?_cons, hp]]
      simp only [lookupNat] at ih
      rw [ih]

theorem lookupNat_recordIncr (r : List (String × Nat)) (k k' : String) :
    lookupNat (recordIncr r k) k' =
      if k' = k then lookupNat r k' + 1 else lookupNat r k' := by
  by_cases he : k' = k
  · subst he
    rw [if_pos rfl]
    by_cases hmem : r.any (fun p => p.1 == k') = true
    · simp only [recordIncr, if_pos hmem]
      exact lookupNat_map_incr_eq r k' hmem
    · simp only [recordIncr, if_neg hmem]
      rw [lookupNat_append_single]
      have hfind : List.find? (fun p => p.1 == k') r = none := by
        rw [List.find?_eq_none]
        intro p hp
        simp only [Bool.not_eq_true]
        by_contra hc
        exact hmem (List.any_eq_true.mpr ⟨p, hp, by simpa using hc⟩)
      rw [if_pos ⟨rfl, hfind⟩]
      simp [lookupNat, hfind]
  · rw [if_neg he]
    by_cases hmem : r.any (fun p => p.1 == k) = true
    · simp only [recordIncr, if_pos hmem, lookupNat]
      rw [find?_map_incr_ne r k k' he]
    · simp only [recordIncr, if_neg hmem]
      rw [lookupNat_append_single]
      rw [if_neg (by intro ⟨h1, _⟩; exact he h1)]

theorem summaryGo_ok_characterization :
    ∀ (l : List HAREntry) (m s d : List (String × Nat)) (td : ℚ)
      (result : List (String × Nat) × List (String × Nat) × List (String × Nat) × ℚ),
      summaryGo l m s d td = .ok result →
      result.2.2.2 = td + (l.map (fun e => e.time)).sum ∧
      (∀ x, lookupNat result.1 x =
        lookupNat m x + l.countP (fun e => e.request.method == x)) ∧
      (∀ x, lookupNat result.2.1 x =
        lookupNat s x + l.countP (fun e => toString e.response.status == x)) ∧
      (∀ x, lookupNat result.2.2.1 x =
        lookupNat d x + l.countP (fun e => hostOf e.request.url == some x)) := by
  intro l
  induction l with
  | nil =>
    intro m s d td result h
    simp only [summaryGo, Except.ok.injEq] at h
    subst h
    simp
  | cons e rest ih =>
    intro m s d td result h
    simp only [summaryGo] at h
    cases hh : hostOf e.request.url with
    | none => rw [hh] at h; exact absurd h (by simp)
    | some host =>
      rw [hh] at h
      obtain ⟨hdur, hm, hs, hd⟩ := ih _ _ _ _ _ h
      refine ⟨?_, ?_, ?_, ?_⟩
      · rw [hdur]
        simp only [List.map_cons, List.sum_cons]
        ring
      · intro x
        rw [hm x, lookupNat_recordIncr]
        rw [List.countP_cons]
        by_cases hx : x = e.request.method
        · rw [if_pos hx, if_pos (by simp [hx])]
          omega
        · rw [if_neg hx, if_neg (by simp; exact fun hc => hx hc.symm)]
          omega
      · intro x
        rw [hs x, lookupNat_recordIncr]
        rw [List.countP_cons]
        by_cases hx : x = toString e.response.status
        · rw [if_pos hx, if_pos (by simp [hx])]
          omega
        · rw [if_neg hx, if_neg (by simp; exact fun hc => hx hc.symm)]
          omega
      · intro x
        rw [hd x, lookupNat_recordIncr]
        rw [List.countP_cons]
        by_cases hx : x = host
        · rw [if_pos hx, if_pos (by simp [hh, hx])]
          omega
        · rw [if_neg hx, if_neg (by simp [hh]; exact fun hc => hx hc.symm)]
          omega

theorem summaryGo_isOk :
    ∀ (l : List HAREntry) (m s d : List (String × Nat)) (td : ℚ),
      (∀ e ∈ l, (hostOf e.request.url).isSome = true) →
      (summaryGo l m s d td).isOk = true := by
  intro l
  induction l with
  | nil => intro m s d td _; rfl
  | cons e rest ih =>
    intro m s d td hall
    simp only [summaryGo]
    cases hh : hostOf e.request.url with
    | none =>
      have := hall e (by simp)
      rw [hh] at this
      exact absurd this (by simp)
    | some host =>
      exact ih _ _ _ _ (fun x hx => hall x (List.mem_cons_of_mem e hx))

/-- C9: generateSummary succeeds whenever every URL parses; on success it
reports totalRequests equal to the number of exchanges, totalDuration
equal to the sum of durations, averageDuration equal to totalDuration
over the count with 0 for the empty collection, and per-method,
per-status-code and per-domain occurrence counts. -/
theorem generateSummary_spec :
    (∀ entries : List HAREntry,
      (∀ e ∈ entries, (hostOf e.request.url).isSome = true) →
      (generateSummary entries).isOk = true) ∧
    (∀ (entries : List HAREntry) (s : HarSummary),
      generateSummary entries = .ok s →
      s.totalRequests = entries.length ∧
      s.totalDuration = (entries.map (fun e => e.time)).sum ∧
      s.averageDuration =
        (if entries.length = 0 then 0 else s.totalDuration / (entries.length : ℚ)) ∧
      (∀ x, lookupNat s.methods x = entries.countP (fun e => e.request.method == x)) ∧
      (∀ x, lookupNat s.statusCodes x =
        entries.countP (fun e => toString e.response.status == x)) ∧
      (∀ x, lookupNat s.domains x =
        entries.countP (fun e => hostOf e.request.url == some x))) := by
  constructor
  · intro entries hall
    simp only [generateSummary]
    cases hgo : summaryGo entries [] [] [] 0 with
    | error u =>
      have := summaryGo_isOk entries [] [] [] 0 hall
      rw [hgo] at this
      simp [Except.isOk, Except.toBool] at this
    | ok r => simp [Except.isOk, Except.toBool]
  · intro entries s h
    simp only [generateSummary] at h
    cases hgo : summaryGo entries [] [] [] 0 with
    | error u => rw [hgo] at h; exact absurd h (by simp)
    | ok r =>
      rw [hgo] at h
      obtain ⟨m, sc, d, td⟩ := r
      simp only [Except.ok.injEq] at h
      obtain ⟨hdur, hm, hs, hd⟩ := summaryGo_ok_characterization entries [] [] [] 0 _ hgo
      subst h
      refine ⟨rfl, ?_, ?_, ?_, ?_, ?_⟩
      · simpa using hdur
      · by_cases hlen : entries.length = 0
        · simp [hlen]
        · simp [hlen, Nat.pos_of_ne_zero hlen]
      · intro x
        simpa [lookupNat] using hm x
      · intro x
        simpa [lookupNat] using hs x
      · intro x
        simpa [lookupNat] using hd x

def c9entry (t : ℚ) : HAREntry :=
  { startedDateTime := "2023-12-01T10:30:00.000Z"
    time := t
    request := { method := "GET", url := "https://a.example.com/x", headers := []
                 queryString := [], postData := none }
    response := { status := 200, statusText := "OK", headers := []
                  content := { mimeType := "", text := none } } }

def c9entries : List HAREntry := [c9entry 100, c9entry 200, c9entry 300]

/-- C9 witness: three exchanges with durations 100, 200 and 300 give a
summary with totalDuration 600, averageDuration 200 and three requests
counted. -/
theorem generateSummary_spec_witness :
    (∀ e ∈ c9entries, (hostOf e.request.url).isSome = true) ∧
    (generateSummary c9entries).isOk = true ∧
    (∀ s : HarSummary, generateSummary c9entries = .ok s →
      s.totalDuration = 600 ∧ s.averageDuration = 200 ∧ s.totalRequests = 3) := by
  have hhyp : ∀ e ∈ c9entries, (hostOf e.request.url).isSome = true := by decide
  refine ⟨hhyp, generateSummary_spec.1 c9entries hhyp, ?_⟩
  intro s hs
  obtain ⟨ht, hdur, havg, _⟩ := generateSummary_spec.2 c9entries s hs
  refine ⟨?_, ?_, ?_⟩
  · rw [hdur]
    norm_num [c9entries, c9entry]
  · rw [havg, hdur]
    norm_num [c9entries, c9entry]
  · rw [ht]
    rfl

theorem normArrayGo_eq_keepFirst :
    ∀ (xs : List Json) (seen : List String),
      normArrayGo xs seen =
        keepFirstByKey ((xs.map normalizeJsonStructure).filter
          (fun y => !(seen.contains (getStructureKey y)))) := by
  intro xs
  induction xs with
  | nil => intro seen; simp [normArrayGo, keepFirstByKey]
  | cons e rest ih =>
    intro seen
    rw [show normArrayGo (e :: rest) seen =
        (if seen.contains (getStructureKey (normalizeJsonStructure e)) then
          normArrayGo rest seen
         else normalizeJsonStructure e ::
           normArrayGo rest (seen ++ [getStructureKey (normalizeJsonStructure e)])) by
      simp [normArrayGo]]
    simp only [List.map_cons, List.filter_cons]
    by_cases hc : seen.contains (getStructureKey (normalizeJsonStructure e)) = true
    · rw [if_pos hc, if_neg (by simpa using hc)]
      exact ih seen
    · rw [if_neg hc, if_pos (by
        simp only [Bool.not_eq_true] at hc
        simpa using hc)]
      rw [show keepFirstByKey (normalizeJsonStructure e ::
          (rest.map normalizeJsonStructure).filter
            (fun y => !(seen.contains (getStructureKey y)))) =
        normalizeJsonStructure e ::
          keepFirstByKey (((rest.map normalizeJsonStructure).filter
            (fun y => !(seen.contains (getStructureKey y)))).filter
            (fun y => getStructureKey y !=
              getStructureKey (normalizeJsonStructure e))) by
        simp [keepFirstByKey]]
      rw [ih (seen ++ [getStructureKey (normalizeJsonStructure e)])]
      rw [List.filter_filter]
      congr 1
      congr 1
      apply List.filter_congr
      intro y _
      by_cases hy : getStructureKey y = getStructureKey (normalizeJsonStructure e)
      · simp [List.elem_eq_mem, hy]
      · have hy2 : getStructureKey (normalizeJsonStructure e) ≠ getStructureKey y :=
          fun h => hy h.symm
        simp [List.elem_eq_mem, hy, hy2]

theorem strIncludes_empty_false (pat : String) (h : pat ≠ "") :
    strIncludes "" pat = false := by
  have : pat.data ≠ [] := fun hd => h (by
    cases pat with
    | mk l => simp at hd; simp [hd])
  simp only [strIncludes]
  cases hp : pat.data with
  | nil => exact absurd hp this
  | cons c rest => simp [containsChars, startsWithChars]

/-- C10: convertEntry does not return a JSON response body verbatim — when
the content type contains json and the (truthy) body text parses, the
returned body is the parse re-serialized with two-space indentation after
normalizeJsonStructure; normalizeJsonStructure rewrites every array to
the first occurrence of each distinct structure key among its normalized
elements (so rendered bodies can silently lose array elements); a failed
parse or a non-JSON content type keeps the body text unchanged. -/
theorem convertResponse_reserializes :
    (∀ (e : HAREntry) (t : JsText) (j : Json),
      e.response.content.text = some t → t.raw ≠ "" →
      strIncludes e.response.content.mimeType "json" = true → t.parsed = some j →
      (convertEntry e).response.body = some (stringify2 (normalizeJsonStructure j))) ∧
    (∀ (e : HAREntry) (t : JsText),
      e.response.content.text = some t → t.raw ≠ "" →
      strIncludes e.response.content.mimeType "json" = true → t.parsed = none →
      (convertEntry e).response.body = some t.raw) ∧
    (∀ (e : HAREntry) (t : JsText),
      e.response.content.text = some t → t.raw ≠ "" →
      strIncludes e.response.content.mimeType "json" = false →
      (convertEntry e).response.body = some t.raw) ∧
    (∀ xs : List Json,
      normalizeJsonStructure (Json.arr xs) =
        Json.arr (keepFirstByKey (xs.map normalizeJsonStructure))) := by
  refine ⟨?_, ?_, ?_, ?_⟩
  · intro e t j ht hraw hinc hp
    have hmime : e.response.content.mimeType ≠ "" := by
      intro hm
      rw [hm, strIncludes_empty_false "json" (by decide)] at hinc
      exact Bool.false_ne_true hinc
    simp only [convertEntry, convertResponse, ht]
    rw [if_pos hraw, if_pos (by simp [hinc, hmime]), hp]
  · intro e t ht hraw hinc hp
    simp only [convertEntry, convertResponse, ht]
    have hmime : e.response.content.mimeType ≠ "" := by
      intro hm
      rw [hm, strIncludes_empty_false "json" (by decide)] at hinc
      exact Bool.false_ne_true hinc
    rw [if_pos hraw, if_pos (by simp [hinc, hmime]), hp]
  · intro e t ht hraw hinc
    simp only [convertEntry, convertResponse, ht]
    rw [if_pos hraw, if_neg (by simp [hinc])]
  · intro xs
    cases xs with
    | nil => simp [normalizeJsonStructure, keepFirstByKey]
    | cons x rest =>
      rw [show normalizeJsonStructure (Json.arr (x :: rest)) =
          Json.arr (normArrayGo (x :: rest) []) by simp [normalizeJsonStructure]]
      rw [normArrayGo_eq_keepFirst]
      simp

def c10j : Json := Json.arr [Json.obj [("a", Json.num 1)], Json.obj [("a", Json.num 2)]]

def c10t : JsText := { raw := "[\x7b\"a\":1\x7d,\x7b\"a\":2\x7d]", parsed := some c10j }

def c10e : HAREntry :=
  { startedDateTime := "2023-12-01T10:30:00.000Z"
    time := 10
    request := { method := "GET", url := "https://a.example.com/x", headers := []
                 queryString := [], postData := none }
    response := { status := 200, statusText := "OK", headers := []
                  content := { mimeType := "application/json", text := some c10t } } }

/-- C10 witness: a two-element JSON array whose elements share a structure
key is rendered as a one-element array with two-space indentation — the
returned body is not the captured text, and an array element was silently
dropped. -/
theorem convertResponse_reserializes_witness :
    (c10e.response.content.text = some c10t ∧ c10t.raw ≠ "" ∧
     strIncludes c10e.response.content.mimeType "json" = true ∧ c10t.parsed = some c10j) ∧
    (convertEntry c10e).response.body = some (stringify2 (normalizeJsonStructure c10j)) ∧
    stringify2 (normalizeJsonStructure c10j) = "[\n  \x7b\n    \"a\": 1\n  \x7d\n]" ∧
    (convertEntry c10e).response.body ≠ some c10t.raw := by
  have hbody := convertResponse_reserializes.1 c10e c10t c10j rfl (by decide) (by decide) rfl
  have hstr : stringify2 (normalizeJsonStructure c10j) = "[\n  \x7b\n    \"a\": 1\n  \x7d\n]" := by
    simp [c10j, normalizeJsonStructure, normArrayGo, normFields, getStructureKey, sortStrings,
          insertSorted, stringify2, stringifyAt, stringifyItems, stringifyFields, spaces,
          quoteJson, escapeChar, hex4, hexDigit, String.singleton, String.join]
    rfl
  refine ⟨⟨rfl, by decide, by decide, rfl⟩, hbody, hstr, ?_⟩
  rw [hbody, hstr]
  decide

theorem segPass_noSlash (r : SegRule) :
    ∀ l : List Char, (∀ c ∈ l, c ≠ '/') → segPass r l = l := by
  intro l
  induction l with
  | nil => intro _; simp [segPass]
  | cons c rest ih =>
    intro h
    have hc : (c == '/') = false := by
      simp only [beq_eq_false_iff_ne]
      exact h c (List.mem_cons_self c rest)
    simp only [segPass, hc]
    rw [ih (fun x hx => h x (List.mem_cons_of_mem c hx))]
    simp

theorem takeExact_suffix :
    ∀ (n : Nat) (p : Char → Bool) (l l' : List Char),
      takeExact n p l = some l' → l'.IsSuffix l := by
  intro n
  induction n with
  | zero =>
    intro p l l' h
    simp only [takeExact, Option.some.injEq] at h
    subst h
    exact List.suffix_rfl
  | succ m ih =>
    intro p l l' h
    match l with
    | [] => simp [takeExact] at h
    | c :: rest =>
      simp only [takeExact] at h
      split at h
      · exact (ih p rest l' h).trans (List.suffix_cons c rest)
      · exact absurd h (by simp)

theorem expectChar_suffix (c : Char) (l l' : List Char) (h : expectChar c l = some l') :
    l'.IsSuffix l := by
  match l with
  | [] => simp [expectChar] at h
  | d :: rest =>
    simp only [expectChar] at h
    split at h
    · simp only [Option.some.injEq] at h
      subst h
      exact List.suffix_cons d rest
    · exact absurd h (by simp)

theorem dropWhileChar_suffix (p : Char → Bool) :
    ∀ l : List Char, (l.dropWhile p).IsSuffix l := by
  intro l
  induction l with
  | nil => simp
  | cons c rest ih =>
    by_cases h : p c
    · rw [List.dropWhile_cons_of_pos h]
      exact ih.trans (List.suffix_cons c rest)
    · rw [List.dropWhile_cons_of_neg h]

theorem matchDigitRun_suffix (l l' : List Char) (h : matchDigitRun l = some l') :
    l'.IsSuffix l := by
  match l with
  | [] => simp [matchDigitRun] at h
  | c :: rest =>
    simp only [matchDigitRun] at h
    split at h
    · simp only [Option.some.injEq] at h
      subst h
      exact (dropWhileChar_suffix Char.isDigit rest).trans (List.suffix_cons c rest)
    · exact absurd h (by simp)

theorem matchUuid_suffix (l l' : List Char) (h : matchUuid l = some l') :
    l'.IsSuffix l := by
  simp only [matchUuid, Option.bind_eq_some] at h
  obtain ⟨r1, h1, r2, h2, r3, h3, r4, h4, r5, h5, r6, h6, r7, h7, r8, h8, h9⟩ := h
  exact (((((((((takeExact_suffix 12 isHexCi r8 l' h9).trans
    (expectChar_suffix _ _ _ h8)).trans
    (takeExact_suffix 4 isHexCi r6 r7 h7)).trans
    (expectChar_suffix _ _ _ h6)).trans
    (takeExact_suffix 4 isHexCi r4 r5 h5)).trans
    (expectChar_suffix _ _ _ h4)).trans
    (takeExact_suffix 4 isHexCi r2 r3 h3)).trans
    (expectChar_suffix _ _ _ h2)).trans
    (takeExact_suffix 8 isHexCi l r1 h1))

theorem ruleMatch_suffix (r : SegRule) (l l' : List Char) (h : ruleMatch r l = some l') :
    l'.IsSuffix l := by
  cases r with
  | idR => exact matchDigitRun_suffix l l' h
  | uuidR => exact matchUuid_suffix l l' h
  | objR => exact takeExact_suffix 24 Char.isAlphanum l l' h
  | hashR => exact takeExact_suffix 32 Char.isAlphanum l l' h

theorem segPass_slash_seg (r : SegRule) (s : List Char) (h : ∀ c ∈ s, c ≠ '/') :
    segPass r ('/' :: s) =
      (if ruleMatch r s = some [] then '/' :: rulePh r else '/' :: s) := by
  have hslash : (('/' : Char) == '/') = true := by decide
  simp only [segPass, hslash, if_true]
  cases hm : ruleMatch r s with
  | none =>
    rw [if_neg (by simp [hm])]
    rw [segPass_noSlash r s h]
  | some t =>
    cases t with
    | nil => rw [if_pos rfl]
    | cons c' rest' =>
      have hc' : c' ≠ '/' := by
        have hsuf := ruleMatch_suffix r s (c' :: rest') hm
        exact h c' (hsuf.subset (List.mem_cons_self c' rest'))
      rw [if_neg (by simp)]
      have hcne : ((c' == '/') : Bool) = false := by
        simp only [beq_eq_false_iff_ne]
        exact hc'
      split
      · rename_i heq
        exact absurd heq (by simp)
      · rename_i rem heq
        exfalso
        apply hc'
        simp only [Option.some.injEq, List.cons.injEq] at heq
        exact heq.1
      · rw [segPass_noSlash r s h]

theorem takeExact_eq_nil_iff :
    ∀ (n : Nat) (p : Char → Bool) (s : List Char),
      takeExact n p s = some [] ↔ (s.length = n ∧ s.all p = true) := by
  intro n
  induction n with
  | zero =>
    intro p s
    cases s <;> simp [takeExact]
  | succ m ih =>
    intro p s
    cases s with
    | nil => simp [takeExact]
    | cons c rest =>
      simp only [takeExact]
      by_cases hp : p c = true
      · rw [if_pos hp, ih]
        simp only [List.all_cons, hp, Bool.true_and, List.length_cons]
        exact and_congr (by omega) Iff.rfl
      · rw [if_neg hp]
        refine iff_of_false (by simp) ?_
        intro ⟨_, ha⟩
        simp only [List.all_cons, Bool.and_eq_true] at ha
        exact hp ha.1

theorem matchDigitRun_eq_nil_iff (s : List Char) :
    matchDigitRun s = some [] ↔ isAllDigits s = true := by
  cases s with
  | nil => simp [matchDigitRun, isAllDigits]
  | cons c rest =>
    simp only [matchDigitRun]
    by_cases hc : c.isDigit = true
    · rw [if_pos hc]
      simp only [Option.some.injEq]
      rw [List.dropWhile_eq_nil_iff]
      simp [isAllDigits, hc, List.all_eq_true]
    · rw [if_neg hc]
      refine iff_of_false (by simp) ?_
      intro ha
      simp only [isAllDigits, List.isEmpty_cons, Bool.not_false, Bool.true_and,
        List.all_cons, Bool.and_eq_true] at ha
      exact hc ha.1

theorem normalizeUrl_seg_chars (s : List Char) (h : ∀ c ∈ s, c ≠ '/') :
    segPass .hashR (segPass .objR (segPass .uuidR (segPass .idR ('/' :: s)))) =
      '/' :: segReplace s := by
  by_cases h1 : isAllDigits s = true
  · rw [segPass_slash_seg .idR s h,
        if_pos (show ruleMatch .idR s = some [] from (matchDigitRun_eq_nil_iff s).mpr h1)]
    rw [segPass_slash_seg .uuidR (rulePh .idR) (by decide), if_neg (by decide)]
    rw [segPass_slash_seg .objR (rulePh .idR) (by decide), if_neg (by decide)]
    rw [segPass_slash_seg .hashR (rulePh .idR) (by decide), if_neg (by decide)]
    rw [show segReplace s = rulePh .idR by simp [segReplace, h1]]
  · have hid : ¬(ruleMatch .idR s = some []) :=
      fun hc => h1 ((matchDigitRun_eq_nil_iff s).mp hc)
    rw [segPass_slash_seg .idR s h, if_neg hid]
    by_cases h2 : isUuidSeg s = true
    · have hu : ruleMatch .uuidR s = some [] := by
        simpa [isUuidSeg] using h2
      rw [segPass_slash_seg .uuidR s h, if_pos hu]
      rw [segPass_slash_seg .objR (rulePh .uuidR) (by decide), if_neg (by decide)]
      rw [segPass_slash_seg .hashR (rulePh .uuidR) (by decide), if_neg (by decide)]
      rw [show segReplace s = rulePh .uuidR by simp [segReplace, h1, h2]]
    · have huu : ¬(ruleMatch .uuidR s = some []) :=
        fun hc => h2 (by simpa [isUuidSeg] using hc)
      rw [segPass_slash_seg .uuidR s h, if_neg huu]
      by_cases h3 : (s.length == 24 && s.all Char.isAlphanum) = true
      · have hob : ruleMatch .objR s = some [] := by
          rw [show ruleMatch .objR s = takeExact 24 Char.isAlphanum s from rfl,
              takeExact_eq_nil_iff]
          simp only [Bool.and_eq_true, beq_iff_eq] at h3
          exact ⟨h3.1, h3.2⟩
        rw [segPass_slash_seg .objR s h, if_pos hob]
        rw [segPass_slash_seg .hashR (rulePh .objR) (by decide), if_neg (by decide)]
        rw [show segReplace s = rulePh .objR by simp [segReplace, h1, h2, h3]]
      · have hob : ¬(ruleMatch .objR s = some []) := by
          intro hc
          rw [show ruleMatch .objR s = takeExact 24 Char.isAlphanum s from rfl,
              takeExact_eq_nil_iff] at hc
          exact h3 (by simp [hc.1, hc.2])
        rw [segPass_slash_seg .objR s h, if_neg hob]
        by_cases h4 : (s.length == 32 && s.all Char.isAlphanum) = true
        · have hha : ruleMatch .hashR s = some [] := by
            rw [show ruleMatch .hashR s = takeExact 32 Char.isAlphanum s from rfl,
                takeExact_eq_nil_iff]
            simp only [Bool.and_eq_true, beq_iff_eq] at h4
            exact ⟨h4.1, h4.2⟩
          rw [segPass_slash_seg .hashR s h, if_pos hha]
          rw [show segReplace s = rulePh .hashR by simp [segReplace, h1, h2, h3, h4]]
        · have hha : ¬(ruleMatch .hashR s = some []) := by
            intro hc
            rw [show ruleMatch .hashR s = takeExact 32 Char.isAlphanum s from rfl,
                takeExact_eq_nil_iff] at hc
            exact h4 (by simp [hc.1, hc.2])
          rw [segPass_slash_seg .hashR s h, if_neg hha]
          rw [show segReplace s = s by simp [segReplace, h1, h2, h3, h4]]

/-- C5 (amended): for a URL consisting of a single path segment the claim
holds with the code's character classes — the segment is replaced by the
first matching rule in priority order (numeric run, UUID, 24
alphanumeric, 32 alphanumeric — not hex) and other segments are kept —
and the claim's examples hold, including trailing-slash preservation;
but because each global pass consumes the trailing slash delimiter of a
match, the second of two adjacent matching segments is not replaced. -/
theorem normalizeUrl_characterization :
    (∀ s : List Char, (∀ c ∈ s, c ≠ '/') →
      normalizeUrl (String.mk ('/' :: s)) = String.mk ('/' :: segReplace s)) ∧
    normalizeUrl "/users/12345/orders" = "/users/\x7bid\x7d/orders" ∧
    normalizeUrl "/users/550e8400-e29b-41d4-a716-446655440000" = "/users/\x7buuid\x7d" ∧
    normalizeUrl "/users/123/" = "/users/\x7bid\x7d/" ∧
    normalizeUrl "/1/2" = "/\x7bid\x7d/2" := by
  refine ⟨?_, ?_, ?_, ?_, ?_⟩
  · intro s h
    simp only [normalizeUrl]
    exact congrArg String.mk (normalizeUrl_seg_chars s h)
  · simp [normalizeUrl, segPass, ruleMatch, matchDigitRun, matchUuid, takeExact, expectChar,
          isHexCi, rulePh, List.dropWhile]
  · simp [normalizeUrl, segPass, ruleMatch, matchDigitRun, matchUuid, takeExact, expectChar,
          isHexCi, rulePh, List.dropWhile]
  · simp [normalizeUrl, segPass, ruleMatch, matchDigitRun, matchUuid, takeExact, expectChar,
          isHexCi, rulePh, List.dropWhile]
  · simp [normalizeUrl, segPass, ruleMatch, matchDigitRun, matchUuid, takeExact, expectChar,
          isHexCi, rulePh, List.dropWhile]

/-- C5 witness: a non-matching single segment passes through unchanged and
a wholly numeric single segment becomes the id placeholder, instantiating
the single-segment characterization. -/
theorem normalizeUrl_characterization_witness :
    ((∀ c ∈ "abc".data, c ≠ '/') ∧
      normalizeUrl (String.mk ('/' :: "abc".data)) = String.mk ('/' :: segReplace "abc".data)) ∧
    ((∀ c ∈ "77".data, c ≠ '/') ∧
      normalizeUrl (String.mk ('/' :: "77".data)) = String.mk ('/' :: segReplace "77".data)) :=
  ⟨⟨by decide, normalizeUrl_characterization.1 "abc".data (by decide)⟩,
   ⟨by decide, normalizeUrl_characterization.1 "77".data (by decide)⟩⟩

/-- C5 counterexample: the claim says every wholly-numeric segment is
replaced, so /1/2 should become two id placeholders; the code's global
replace consumes the delimiter slash of the first match, so the second
numeric segment keeps no leading slash and survives.  The claim's
24-hex-characters rule also differs from the code, whose character class
is alphanumeric: a segment of 24 letters Z becomes the objectId
placeholder although Z is not a hex digit. -/
theorem normalizeUrl_claim_counterexample :
    normalizeUrl "/1/2" = "/\x7bid\x7d/2" ∧
    normalizeUrlSpec "/1/2" = "/\x7bid\x7d/\x7bid\x7d" ∧
    normalizeUrl "/1/2" ≠ normalizeUrlSpec "/1/2" ∧
    normalizeUrl "/ZZZZZZZZZZZZZZZZZZZZZZZZ" = "/\x7bobjectId\x7d" ∧
    normalizeUrlSpec "/ZZZZZZZZZZZZZZZZZZZZZZZZ" = "/ZZZZZZZZZZZZZZZZZZZZZZZZ" := by
  refine ⟨?_, ?_, ?_, ?_, ?_⟩
  · simp [normalizeUrl, segPass, ruleMatch, matchDigitRun, matchUuid, takeExact, expectChar,
          isHexCi, rulePh, List.dropWhile]
  · decide
  · intro hc
    have h1 : normalizeUrl "/1/2" = "/\x7bid\x7d/2" := by
      simp [normalizeUrl, segPass, ruleMatch, matchDigitRun, matchUuid, takeExact, expectChar,
            isHexCi, rulePh, List.dropWhile]
    have h2 : normalizeUrlSpec "/1/2" = "/\x7bid\x7d/\x7bid\x7d" := by decide
    rw [h1, h2] at hc
    exact absurd hc (by decide)
  · simp [normalizeUrl, segPass, ruleMatch, matchDigitRun, matchUuid, takeExact, expectChar,
          isHexCi, rulePh, List.dropWhile]
  · decide
